import Mathlib

/-!
Verification of the build-file transformation engine of the
gradle-migration-automator repository against its specification.

The embedding models text as `List Char` (written `Str` below).  JavaScript
strings are translated to char lists via `str`.  The JavaScript regular
expressions used by the source are linear patterns (literals, whitespace
runs, quote classes, lazy any-char up to a closing brace, greedy any-char up
to end of line); they are modelled by deterministic scanners that follow the
leftmost-match / continue-after-match semantics of `String.replace` with a
global regex, and by bounded searches for `RegExp.test`.  The `\s` class is
modelled by the ASCII whitespace characters.

Sources embedded here:
  * src/participants/transformationPlanner.ts — generateUnifiedDiff,
    stripRepositoriesAndWrapper, ensureCommonLibPlugin, normalizeAlias,
    extractVersionsFromExt, extractDependencies, buildToml,
    updateGradleWrapperProperties, findAllBuildGradleFiles,
    executeStepByStepMigration.
  * src/participants/gradleParser.ts — findGradleFiles, detectNexus.

The optional AI-enhancement collaborator is modelled as failing/absent: per
the source, `generateAIEnhancedContent` then reports confidence 0 and the
deterministic fallbacks are used (`buildToml`, and the original file content
in `stripRepositoriesAndWrapperWithAI`).
-/

/-- Text is modelled as a list of characters. -/
abbrev Str := List Char

/-- Conversion from a Lean string literal to the `Str` model. -/
def str (s : String) : Str := s.data

/-- The ASCII whitespace characters matched by the JavaScript `\s` class. -/
def jsSpace (c : Char) : Bool :=
  c = ' ' || c = '\t' || c = '\n' || c = '\r' || c = '\x0b' || c = '\x0c'

/-- JavaScript word characters (for `\b` boundaries): `[A-Za-z0-9_]`. -/
def jsWord (c : Char) : Bool :=
  ('a' ≤ c && c ≤ 'z') || ('A' ≤ c && c ≤ 'Z') || ('0' ≤ c && c ≤ '9') || c = '_'

/-- ASCII decimal digits. -/
def isDigitC (c : Char) : Bool := '0' ≤ c && c ≤ '9'

/-- ASCII lower-case letters (the `[a-z]` class of `normalizeAlias`). -/
def isLowerC (c : Char) : Bool := 'a' ≤ c && c ≤ 'z'

/-- Lower-casing of a char list, modelling `String.prototype.toLowerCase`. -/
def lowerStr (s : Str) : Str := s.map Char.toLower

/-- Substring test, modelling `String.prototype.includes`. -/
def containsSub (pat : Str) : Str → Bool
  | [] => pat.isPrefixOf []
  | c :: rest => pat.isPrefixOf (c :: rest) || containsSub pat rest

/-- First index of a substring occurrence, if any (`String.prototype.indexOf`). -/
def indexOfSub (pat : Str) : Str → Option Nat
  | [] => if pat.isPrefixOf ([] : Str) then some 0 else none
  | c :: rest =>
      if pat.isPrefixOf (c :: rest) then some 0
      else (indexOfSub pat rest).map (· + 1)

/-- Association-list lookup for JavaScript object property access. -/
def lookupA (m : List (Str × Str)) (k : Str) : Option Str :=
  match m with
  | [] => none
  | (k', v) :: rest => if k' = k then some v else lookupA rest k

/-- JavaScript object property assignment `obj[k] = v`: an existing key keeps
its position and gets the new value, a new key is appended. -/
def objSet (m : List (Str × Str)) (k : Str) (v : Str) : List (Str × Str) :=
  match m with
  | [] => [(k, v)]
  | (k', v') :: rest => if k' = k then (k', v) :: rest else (k', v') :: objSet rest k v

/-- JavaScript `Object.assign(target, source)`: each source entry overwrites or
is appended in order. -/
def objAssign (target : List (Str × Str)) (source : List (Str × Str)) : List (Str × Str) :=
  source.foldl (fun acc kv => objSet acc kv.1 kv.2) target

/-- Splitting on newline characters, modelling `String.prototype.split('\n')`:
the result is always non-empty and `"" .split('\n') = [""]`. -/
def splitNl : Str → List Str
  | [] => [[]]
  | c :: rest =>
      if c = '\n' then [] :: splitNl rest
      else
        match splitNl rest with
        | [] => [[c]]
        | h :: t => (c :: h) :: t

/-- Joining lines with newline characters, modelling `Array.prototype.join('\n')`. -/
def joinNl : List Str → Str
  | [] => []
  | [l] => l
  | l :: rest => l ++ '\n' :: joinNl rest

theorem splitNl_ne_nil (s : Str) : splitNl s ≠ [] := by
  induction s with
  | nil => simp [splitNl]
  | cons c rest ih =>
      simp only [splitNl]
      split
      · simp
      · cases h : splitNl rest with
        | nil => simp
        | cons h t => simp

/-- Splitting and rejoining on newlines is the identity. -/
theorem joinNl_splitNl (s : Str) : joinNl (splitNl s) = s := by
  induction s with
  | nil => rfl
  | cons c rest ih =>
      simp only [splitNl]
      by_cases hc : c = '\n'
      · subst hc
        simp only [if_pos rfl]
        cases h : splitNl rest with
        | nil => exact absurd h (splitNl_ne_nil rest)
        | cons h t =>
            rw [h] at ih
            simpa [joinNl] using ih
      · rw [if_neg hc]
        cases h : splitNl rest with
        | nil => exact absurd h (splitNl_ne_nil rest)
        | cons hd t =>
            rw [h] at ih
            cases t with
            | nil => simpa [joinNl] using ih
            | cons t0 ts => simpa [joinNl] using ih

/-- Decimal rendering of a natural number (for the emitted hunk headers). -/
def natStr (n : Nat) : Str := Nat.toDigits 10 n

/-- The line-by-line body of the single whole-file hunk that
`generateUnifiedDiff` emits (transformationPlanner.ts lines 76–87): position
`i` of the old and new line arrays is compared; equal lines become a context
line, differing positions become a removal (when an old line exists) followed
by an addition (when a new line exists). -/
def diffBody : List Str → List Str → List Str
  | [], [] => []
  | o :: os, n :: ns =>
      if o = n then (' ' :: o) :: diffBody os ns
      else ('-' :: o) :: ('+' :: n) :: diffBody os ns
  | o :: os, [] => ('-' :: o) :: diffBody os []
  | [], n :: ns => ('+' :: n) :: diffBody [] ns

/-- The new-side lines of a diff body: context and addition lines, in order,
with their marker character removed. -/
def newSideLines (body : List Str) : List Str :=
  body.filterMap fun l =>
    match l with
    | [] => none
    | c :: rest => if c = ' ' || c = '+' then some rest else none

/-- The old-side lines of a diff body: context and removal lines, in order,
with their marker character removed. -/
def oldSideLines (body : List Str) : List Str :=
  body.filterMap fun l =>
    match l with
    | [] => none
    | c :: rest => if c = ' ' || c = '-' then some rest else none

/-- The hunk header `@@ -1,oldCount +1,newCount @@` with a trailing newline
(transformationPlanner.ts line 75). -/
def hunkHeader (oldCount newCount : Nat) : Str :=
  str "@@ -1," ++ natStr oldCount ++ str " +1," ++ natStr newCount ++ str " @@\n"

/-- Embedding of `generateUnifiedDiff` (transformationPlanner.ts lines 69–89):
`---`/`+++` headers, the whole-file hunk header, and the body joined with
newlines plus a trailing newline. -/
def generateUnifiedDiff (oldText newText fileRelPath : Str) : Str :=
  let oldLines := splitNl oldText
  let newLines := splitNl newText
  str "--- a/" ++ fileRelPath ++ str "\n+++ b/" ++ fileRelPath ++ str "\n" ++
    joinNl (hunkHeader oldLines.length newLines.length :: diffBody oldLines newLines) ++
    str "\n"

theorem newSideLines_diffBody (os ns : List Str) : newSideLines (diffBody os ns) = ns := by
  induction os generalizing ns with
  | nil =>
      induction ns with
      | nil => simp [diffBody, newSideLines]
      | cons n ns ih => simp [diffBody, newSideLines] at ih ⊢; exact ih
  | cons o os ih =>
      cases ns with
      | nil =>
          have h0 : ∀ os' : List Str, newSideLines (diffBody os' []) = [] := by
            intro os'
            induction os' with
            | nil => simp [diffBody, newSideLines]
            | cons o' os' ih' => simp [diffBody, newSideLines] at ih' ⊢; exact ih'
          exact h0 (o :: os)
      | cons n ns =>
          by_cases h : o = n
          · have := ih ns
            simp [diffBody, h, newSideLines] at this ⊢
            exact this
          · have := ih ns
            simp [diffBody, h, newSideLines] at this ⊢
            exact this

theorem oldSideLines_diffBody (os ns : List Str) : oldSideLines (diffBody os ns) = os := by
  induction os generalizing ns with
  | nil =>
      induction ns with
      | nil => simp [diffBody, oldSideLines]
      | cons n ns ih => simp [diffBody, oldSideLines] at ih ⊢; exact ih
  | cons o os ih =>
      cases ns with
      | nil =>
          have h1 := ih ([] : List Str)
          simp [diffBody, oldSideLines] at h1 ⊢
          exact h1
      | cons n ns =>
          by_cases h : o = n
          · have := ih ns
            simp [diffBody, h, oldSideLines] at this ⊢
            exact this
          · have := ih ns
            simp [diffBody, h, oldSideLines] at this ⊢
            exact this

/-- C7: the modify-diff of `generateUnifiedDiff` round-trips — taking the
context and addition lines of the emitted hunk body in order and joining them
reproduces the new text exactly — and the counts in the emitted hunk header
`@@ -1,oldCount +1,newCount @@` equal the number of emitted old-side
(context + removal) and new-side (context + addition) lines. -/
theorem generateUnifiedDiff_roundtrip_and_counts (oldText newText fileRelPath : Str) :
    joinNl (newSideLines (diffBody (splitNl oldText) (splitNl newText))) = newText ∧
    (oldSideLines (diffBody (splitNl oldText) (splitNl newText))).length =
      (splitNl oldText).length ∧
    (newSideLines (diffBody (splitNl oldText) (splitNl newText))).length =
      (splitNl newText).length ∧
    generateUnifiedDiff oldText newText fileRelPath =
      str "--- a/" ++ fileRelPath ++ str "\n+++ b/" ++ fileRelPath ++ str "\n" ++
        joinNl (hunkHeader (splitNl oldText).length (splitNl newText).length ::
          diffBody (splitNl oldText) (splitNl newText)) ++ str "\n" := by
  refine ⟨?_, ?_, ?_, rfl⟩
  · rw [newSideLines_diffBody]
    exact joinNl_splitNl newText
  · rw [oldSideLines_diffBody]
  · rw [newSideLines_diffBody]

/-- Embedding of the `EXCLUDED_DEPENDENCIES` constant
(transformationPlanner.ts lines 22–26). -/
def EXCLUDED_DEPENDENCIES : List Str := [str "gradle-nexus-plugin", str "scalatest"]

/-- Embedding of the `EXCLUDED_VERSION_KEYS` constant
(transformationPlanner.ts lines 29–49). -/
def EXCLUDED_VERSION_KEYS : List Str :=
  [str "uploadArchivesUrl", str "nexusUsername", str "nexusPassword", str "nexusUrl",
   str "nexusRepo", str "nexusSnapshots", str "nexusReleases", str "artifactoryUrl",
   str "artifactoryUsername", str "artifactoryPassword", str "publishUrl",
   str "publishUsername", str "publishPassword", str "mavenUrl", str "mavenUsername",
   str "mavenPassword", str "repositoryUrl", str "repositoryUsername",
   str "repositoryPassword"]

/-- The `GRADLE_PLATFORM_VERSION` constant (transformationPlanner.ts line 67). -/
def GRADLE_PLATFORM_VERSION : Str := str "1.0.1-30"

/-- A dependency declaration as produced by `extractDependencies`
(transformationPlanner.ts line 207): configuration, optional group, artifact
and version, and the raw matched line. -/
structure GDep where
  conf : Str := []
  group : Option Str := none
  artifact : Option Str := none
  version : Option Str := none
  raw : Str := []
deriving DecidableEq

/-- JavaScript truthiness of an optional string field (`undefined` and the
empty string are falsy). -/
def truthy : Option Str → Bool
  | none => false
  | some s => !s.isEmpty

/-- The dependency-exclusion test of `buildToml` (lines 251–254 for version
entries): an excluded token occurs case-insensitively in the key or the value. -/
def shouldExcludeDep (k v : Str) : Bool :=
  EXCLUDED_DEPENDENCIES.any fun e =>
    containsSub (lowerStr e) (lowerStr k) || containsSub (lowerStr e) (lowerStr v)

/-- The version-key exclusion test of `buildToml` (lines 255–257). -/
def shouldExcludeKey (k : Str) : Bool :=
  EXCLUDED_VERSION_KEYS.any fun e => containsSub (lowerStr e) (lowerStr k)

/-- The dependency-exclusion test applied to a `group`/`artifact` pair in the
libraries loop of `buildToml` (lines 282–285). -/
def depExcluded (g a : Str) : Bool :=
  EXCLUDED_DEPENDENCIES.any fun e =>
    containsSub (lowerStr e) (lowerStr g) || containsSub (lowerStr e) (lowerStr a)

/-- The merged version entries surviving both exclusion screens, in order
(the loop of `buildToml` lines 250–261 emits exactly these). -/
def keptVersions (merged : List (Str × Str)) : List (Str × Str) :=
  merged.filter fun kv => !shouldExcludeDep kv.1 kv.2 && !shouldExcludeKey kv.1

/-- A `key = "value"` line of the `[versions]` section. -/
def versionEntryLine (kv : Str × Str) : Str :=
  kv.1 ++ str " = \"" ++ kv.2 ++ str "\""

/-- The lines of the `[versions]` section of `buildToml`: the section header,
the fixed `plasmaGradlePlugins` baseline, then the surviving merged entries. -/
def versionsSectionLines (merged : List (Str × Str)) : List Str :=
  str "[versions]" ::
    (str "plasmaGradlePlugins = \"" ++ GRADLE_PLATFORM_VERSION ++ str "\"") ::
    (keptVersions merged).map versionEntryLine

/-- The keys present in the emitted `[versions]` section. -/
def emittedVersionKeys (merged : List (Str × Str)) : List Str :=
  str "plasmaGradlePlugins" :: (keptVersions merged).map Prod.fst

/-- Embedding of `normalizeAlias` (transformationPlanner.ts lines 178–183):
strip one leading `[a-z]+.` namespace segment from the group, replace the
remaining dots of group and artifact with hyphens, join with a dot. -/
def normalizeAlias (group artifact : Str) : Str :=
  let pre := group.takeWhile isLowerC
  let g :=
    if (!pre.isEmpty) && ((group.drop pre.length).head? == some '.') then
      group.drop (pre.length + 1)
    else group
  let dotDash : Char → Char := fun c => if c = '.' then '-' else c
  g.map dotDash ++ '.' :: artifact.map dotDash

/-- The libraries line emitted for one dependency by `buildToml`
(lines 288–290): the version is a `version.ref` when the literal version
string is a key of the extracted `versions` map, a literal `version`
otherwise, and omitted when no version was captured. -/
def depLibraryLine (versions : List (Str × Str)) (g a : Str) (v : Option Str) : Str :=
  let versionField :=
    match v with
    | some ver =>
        if (lookupA versions ver).isSome then str ", version.ref = \"" ++ ver ++ str "\""
        else str ", version = \"" ++ ver ++ str "\""
    | none => []
  normalizeAlias g a ++ str " = \x7b group = \"" ++ g ++ str "\", name = \"" ++ a ++
    str "\"" ++ versionField ++ str " \x7d"

/-- The `version.ref` carried by the libraries line of a dependency, if the
line carries one (mirrors the branch of `depLibraryLine`). -/
def depVersionRef (versions : List (Str × Str)) (d : GDep) : Option Str :=
  match d.version with
  | some ver => if (lookupA versions ver).isSome then some ver else none
  | none => none

/-- The dependency loop of `buildToml` (lines 278–292): skip entries without
a truthy group and artifact, skip excluded ones, emit one line each. -/
def buildTomlDepLines (versions : List (Str × Str)) : List GDep → List Str
  | [] => []
  | d :: ds =>
      (if truthy d.group && truthy d.artifact then
        if depExcluded (d.group.getD []) (d.artifact.getD []) then []
        else [depLibraryLine versions (d.group.getD []) (d.artifact.getD []) d.version]
      else []) ++ buildTomlDepLines versions ds

/-- The fixed `GRADLE_PLATFORM_PLUGINS` library lines (lines 52–64, 266–268);
both carry `version.ref = "plasmaGradlePlugins"`. -/
def platformPluginLines : List Str :=
  [str "plugin.publishing.artifactory = \x7b module = \"ops.org.publishing-artifactory:ops.org.publishing-artifactory.gradle.plugin\", version.ref = \"plasmaGradlePlugins\" \x7d",
   str "plugin.repositories.artifactory = \x7b module = \"ops.org.repositories-artifactory:ops.org.repositories-artifactory.gradle.plugin\", version.ref = \"plasmaGradlePlugins\" \x7d"]

/-- The fixed `[plugins]` section (lines 294–297); all three entries carry
literal `version` fields, never a `version.ref`. -/
def pluginsSectionLines : List Str :=
  [str "\n[plugins]",
   str "publishing.artifactory = \x7b id = \"com.org.publishing-artifactory\", version = \"1.0.0\" \x7d",
   str "repositories.artifactory = \x7b id = \"com.org.repositories-artifactory\", version = \"1.0.0\" \x7d",
   str "scoverage = \x7b id = \"org.scoverage\", version = \"8.1.3\" \x7d"]

/-- An optional reference catalog (`referenceContext.libsVersions`): version
entries take precedence on merge, library entries are echoed as raw lines. -/
structure RefCtx where
  versions : List (Str × Str)
  libraries : List (Str × Str)

/-- The reference library lines of `buildToml` (lines 271–275); the parsed
definition string is re-serialized in quotes (`JSON.stringify`, with escaping
elided for the plain strings produced by `parseTomlContent`). -/
def refLibraryLines : Option RefCtx → List Str
  | none => []
  | some rc => rc.libraries.map fun al => al.1 ++ str " = \"" ++ al.2 ++ str "\""

/-- Embedding of `buildToml` (transformationPlanner.ts lines 228–299) as its
list of emitted lines, in order. -/
def buildTomlLines (versions : List (Str × Str)) (deps : List GDep)
    (refCtx : Option RefCtx) : List Str :=
  let merged := match refCtx with
    | none => versions
    | some rc => objAssign versions rc.versions
  versionsSectionLines merged ++
    (str "\n[libraries]" :: (platformPluginLines ++ refLibraryLines refCtx ++
      buildTomlDepLines versions deps)) ++
    pluginsSectionLines

/-- Embedding of `buildToml`'s returned string: the lines joined with
newlines plus a trailing newline (line 298). -/
def buildToml (versions : List (Str × Str)) (deps : List GDep)
    (refCtx : Option RefCtx) : Str :=
  joinNl (buildTomlLines versions deps refCtx) ++ str "\n"

theorem mem_keptVersions (merged : List (Str × Str)) (k v : Str) :
    (k, v) ∈ keptVersions merged ↔
      ((k, v) ∈ merged ∧ shouldExcludeDep k v = false ∧ shouldExcludeKey k = false) := by
  simp [keptVersions, List.mem_filter, and_assoc]

/-- C8: a merged version entry survives into the `[versions]` section of
`buildToml` exactly when neither its key nor its value contains an
excluded-dependency token (case-insensitively) and its key contains no
excluded-version-key token; all other merged entries are emitted. -/
theorem buildToml_versions_exclusion (merged : List (Str × Str)) (k v : Str) :
    (k, v) ∈ keptVersions merged ↔
      ((k, v) ∈ merged ∧ shouldExcludeDep k v = false ∧ shouldExcludeKey k = false) :=
  mem_keptVersions merged k v

/-- The dependency loop of `buildToml` is a filter followed by a map: one
line per surviving declaration, with no deduplication. -/
theorem buildTomlDepLines_eq_filter_map (versions : List (Str × Str)) (deps : List GDep) :
    buildTomlDepLines versions deps =
      (deps.filter fun d =>
        (truthy d.group && truthy d.artifact) &&
          !depExcluded (d.group.getD []) (d.artifact.getD [])).map
        fun d => depLibraryLine versions (d.group.getD []) (d.artifact.getD []) d.version := by
  induction deps with
  | nil => rfl
  | cons d ds ih =>
      by_cases h1 : (truthy d.group && truthy d.artifact) = true
      · by_cases h2 : depExcluded (d.group.getD []) (d.artifact.getD []) = true
        · simp [buildTomlDepLines, h1, h2, List.filter_cons, ih]
        · simp only [Bool.not_eq_true] at h2
          simp [buildTomlDepLines, h1, h2, List.filter_cons, ih]
      · simp only [Bool.not_eq_true] at h1
        simp [buildTomlDepLines, h1, List.filter_cons, ih]

theorem lookupA_isSome_mem {m : List (Str × Str)} {k : Str}
    (h : (lookupA m k).isSome = true) : ∃ v, (k, v) ∈ m := by
  induction m with
  | nil => simp [lookupA] at h
  | cons kv rest ih =>
      obtain ⟨k', v'⟩ := kv
      by_cases hk : k' = k
      · subst hk
        exact ⟨v', List.mem_cons_self _ _⟩
      · simp only [lookupA, if_neg hk] at h
        obtain ⟨v, hv⟩ := ih h
        exact ⟨v, List.mem_cons_of_mem _ hv⟩

/-- C2 (amended): the dependency loop of `buildToml` emits exactly one
libraries line per dependency declaration with a truthy group and artifact
that is not excluded, with no deduplication by `group:artifact` identity —
the emitted list is a filter of the declarations followed by a map, so its
length equals the number of surviving declarations, counted with
multiplicity. -/
theorem buildToml_one_line_per_declaration (versions : List (Str × Str)) (deps : List GDep) :
    buildTomlDepLines versions deps =
      (deps.filter fun d =>
        (truthy d.group && truthy d.artifact) &&
          !depExcluded (d.group.getD []) (d.artifact.getD [])).map
        (fun d => depLibraryLine versions (d.group.getD []) (d.artifact.getD []) d.version) ∧
    (buildTomlDepLines versions deps).length =
      ((deps.filter fun d =>
        (truthy d.group && truthy d.artifact) &&
          !depExcluded (d.group.getD []) (d.artifact.getD []))).length := by
  refine ⟨buildTomlDepLines_eq_filter_map versions deps, ?_⟩
  rw [buildTomlDepLines_eq_filter_map versions deps, List.length_map]

/-- C2 (counterexample): two dependency declarations with identical
`group:artifact` but different configurations produce two libraries lines
with the same alias — not exactly one entry, and the emitted `[libraries]`
lines contain a duplicate. -/
theorem buildToml_duplicate_alias_cex :
    (let d1 : GDep := { conf := str "implementation", group := some (str "org.example"),
                        artifact := some (str "foo"), version := some (str "1.2.3"),
                        raw := [] }
     let d2 : GDep := { d1 with conf := str "testImplementation" }
     d1.group = d2.group ∧ d1.artifact = d2.artifact ∧ d1 ≠ d2 ∧
     (buildTomlDepLines [] [d1, d2]).length = 2 ∧
     ¬ (buildTomlDepLines [] [d1, d2]).Nodup) := by
  decide

/-- C3 (amended): the baseline `plasmaGradlePlugins` key referenced by the
fixed platform-plugin library lines is always present in the emitted
`[versions]` keys, and when no extracted version entry matches either
exclusion list, every `version.ref` carried by a dependency's libraries line
resolves to a key of the emitted `[versions]` section. -/
theorem buildToml_refs_resolve (versions : List (Str × Str)) (deps : List GDep)
    (h : ∀ kv ∈ versions, shouldExcludeDep kv.1 kv.2 = false ∧ shouldExcludeKey kv.1 = false) :
    str "plasmaGradlePlugins" ∈ emittedVersionKeys versions ∧
    ∀ d ∈ deps, ∀ v, depVersionRef versions d = some v → v ∈ emittedVersionKeys versions := by
  constructor
  · exact List.mem_cons_self _ _
  · intro d _ v hv
    cases hver : d.version with
    | none => simp [depVersionRef, hver] at hv
    | some ver =>
        simp only [depVersionRef, hver] at hv
        by_cases hs : (lookupA versions ver).isSome = true
        · rw [if_pos hs] at hv
          obtain ⟨val, hval⟩ := lookupA_isSome_mem hs
          have hkept : (ver, val) ∈ keptVersions versions := by
            rw [mem_keptVersions]
            exact ⟨hval, (h _ hval).1, (h _ hval).2⟩
          have hvv : ver = v := by injection hv
          rw [← hvv]
          exact List.mem_cons_of_mem _ (List.mem_map_of_mem Prod.fst hkept)
        · rw [if_neg hs] at hv
          simp at hv

/-- Witness for `buildToml_refs_resolve` at a concrete input. -/
theorem buildToml_refs_resolve_witness :
    str "fooVersion" ∈ emittedVersionKeys [(str "fooVersion", str "1.0")] :=
  (buildToml_refs_resolve [(str "fooVersion", str "1.0")]
      [{ conf := str "implementation", group := some (str "org.acme"),
         artifact := some (str "app"), version := some (str "fooVersion"), raw := [] }]
      (by decide)).2
    { conf := str "implementation", group := some (str "org.acme"),
      artifact := some (str "app"), version := some (str "fooVersion"), raw := [] }
    (List.mem_singleton.mpr rfl) (str "fooVersion") (by decide)

set_option maxRecDepth 20000 in
/-- C3 (counterexample): a dependency whose version string names an extracted
version key that the exclusion lists screen out produces a libraries line
carrying `version.ref = "scalatestVersion"` while the emitted `[versions]`
section has no such key — a dangling reference. -/
theorem buildToml_dangling_ref_cex :
    (let versions : List (Str × Str) := [(str "scalatestVersion", str "3.2.0")]
     let d : GDep := { conf := str "implementation", group := some (str "org.acme"),
                       artifact := some (str "core"), version := some (str "scalatestVersion"),
                       raw := [] }
     depVersionRef versions d = some (str "scalatestVersion") ∧
     containsSub (str "version.ref = \"scalatestVersion\"")
       (joinNl (buildTomlLines versions [d] none)) = true ∧
     str "scalatestVersion" ∉ emittedVersionKeys versions) := by
  decide

/-- A positional pattern matcher: given the text from the current position,
return the number of characters the pattern consumes here, or `none` if it
does not match at this position. -/
abbrev PMatch := Str → Option Nat

/-- A matcher that may also consult the character just before the current
position (for `^` and `\b`). -/
abbrev Matcher := Option Char → Str → Option Nat

/-- Literal pattern piece. -/
def litC (l : Str) : PMatch := fun s => if l.isPrefixOf s then some l.length else none

/-- The `\s*` piece: greedily consume the whitespace run (the following piece
of every pattern in the source starts with a non-whitespace character, so
the greedy run is the unique parse). -/
def wsStarC : PMatch := fun s => some (s.takeWhile jsSpace).length

/-- The `\s+` piece. -/
def wsPlusC : PMatch := fun s =>
  let n := (s.takeWhile jsSpace).length
  if n = 0 then none else some n

/-- A single character satisfying a class. -/
def charC (p : Char → Bool) : PMatch := fun s =>
  match s with
  | [] => none
  | c :: _ => if p c then some 1 else none

/-- The `['"]` quote class (single or double quote, matched independently). -/
def quoteC : PMatch := charC fun c => c = '\'' || c = '"'

/-- The `[\s\S]*?\}` piece: lazily consume up to and including the first
closing brace. -/
def lazyToBrace : PMatch := fun s => (s.findIdx? (· = '}')).map (· + 1)

/-- The `.*` piece at the end of a pattern: greedily consume to the end of
the line (the dot does not match newlines). -/
def dotStarEol : PMatch := fun s => some (s.takeWhile (· ≠ '\n')).length

/-- The `\b` piece after a word: zero-width, the next character is a
non-word character or the end of the text. -/
def endOrNonWord : PMatch := fun s =>
  match s with
  | [] => some 0
  | c :: _ => if jsWord c then none else some 0

/-- Sequencing of pattern pieces. -/
def seqC (p q : PMatch) : PMatch := fun s => (p s).bind fun k => (q (s.drop k)).map (k + ·)

/-- Ordered alternation of pattern pieces (the JavaScript engine tries the
alternatives left to right at each position). -/
def altC (p q : PMatch) : PMatch := fun s =>
  match p s with
  | some k => some k
  | none => q s

/-- A position-only pattern lifted to a `Matcher`. -/
def liftP (p : PMatch) : Matcher := fun _ s => p s

/-- The `KEYWORD\s*\{[\s\S]*?\}` block pattern of the stripper. -/
def blockPat (kw : String) : PMatch :=
  seqC (litC (str kw)) (seqC wsStarC (seqC (charC (· = '{')) lazyToBrace))

/-- `repositories\s*\{[\s\S]*?\}` (transformationPlanner.ts line 118). -/
def repoPat : PMatch := blockPat "repositories"

/-- `publishing\s*\{[\s\S]*?\}` (line 122). -/
def publishingPat : PMatch := blockPat "publishing"

/-- `uploadArchives\s*\{[\s\S]*?\}|task\s+uploadArchives[\s\S]*?\}` (line 126). -/
def uploadArchivesPat : PMatch :=
  altC (blockPat "uploadArchives")
    (seqC (litC (str "task")) (seqC wsPlusC (seqC (litC (str "uploadArchives")) lazyToBrace)))

/-- `modifyPom\s*\{[\s\S]*?\}` (line 130). -/
def modifyPomPat : PMatch := blockPat "modifyPom"

/-- `nexus\s*\{[\s\S]*?\}|nexusStaging\s*\{[\s\S]*?\}` (line 134). -/
def nexusConfigPat : PMatch := altC (blockPat "nexus") (blockPat "nexusStaging")

/-- `signing\s*\{[\s\S]*?\}` (line 138). -/
def signingPat : PMatch := blockPat "signing"

/-- `task\s+wrapper\b[\s\S]*?\}|tasks\.register\(\s*['"]wrapper['"][\s\S]*?\}|\bwrapper\s*\{[\s\S]*?\}`
(line 142); the third alternative needs the preceding character for its `\b`. -/
def wrapperTaskM : Matcher := fun prev s =>
  match
    altC
      (seqC (litC (str "task"))
        (seqC wsPlusC (seqC (litC (str "wrapper")) (seqC endOrNonWord lazyToBrace))))
      (seqC (litC (str "tasks.register("))
        (seqC wsStarC (seqC quoteC (seqC (litC (str "wrapper")) (seqC quoteC lazyToBrace))))) s
  with
  | some k => some k
  | none =>
      if (match prev with | none => true | some c => !jsWord c) then blockPat "wrapper" s
      else none

/-- `apply\s+from:\s*['"]versions\.gradle['"]` (line 146). -/
def applyVersionsPat : PMatch :=
  seqC (litC (str "apply"))
    (seqC wsPlusC (seqC (litC (str "from:"))
      (seqC wsStarC (seqC quoteC (seqC (litC (str "versions.gradle")) quoteC)))))

/-- The body of the ad hoc variable block pattern: `\s*ext\s*\{[\s\S]*?\}`. -/
def extCorePat : PMatch :=
  seqC wsStarC (seqC (litC (str "ext")) (seqC wsStarC (seqC (charC (· = '{')) lazyToBrace)))

/-- `(^|\n)\s*ext\s*\{[\s\S]*?\}` (line 148): at the start of the text the
anchor alternative is tried first; elsewhere a newline is consumed. -/
def extBlockM : Matcher := fun prev s =>
  match prev with
  | none => altC extCorePat (seqC (charC (· = '\n')) extCorePat) s
  | some _ => seqC (charC (· = '\n')) extCorePat s

/-- A `key\s*=.*` legacy property assignment pattern. -/
def propPat (kw : String) : PMatch :=
  seqC (litC (str kw)) (seqC wsStarC (seqC (charC (· = '=')) dotStarEol))

/-- `uploadArchivesUrl\s*=.*|nexusUsername\s*=.*|nexusPassword\s*=.*|nexusUrl\s*=.*`
(line 152). -/
def nexusPropsPat : PMatch :=
  altC (propPat "uploadArchivesUrl")
    (altC (propPat "nexusUsername") (altC (propPat "nexusPassword") (propPat "nexusUrl")))

/-- `apply\s+plugin:\s*['"]maven-publish['"]` (line 156). -/
def mavenPublishPat : PMatch :=
  seqC (litC (str "apply"))
    (seqC wsPlusC (seqC (litC (str "plugin:"))
      (seqC wsStarC (seqC quoteC (seqC (litC (str "maven-publish")) quoteC)))))

/-- Scan of `String.prototype.replace` with a global regex and empty
replacement: try the matcher at each position from left to right; on a match
drop the matched characters (at least one) and continue after them, counting
one change; otherwise keep the character and move on.  The fuel argument is
the length of the text, which suffices since every step consumes at least
one character. -/
def raGo (m : Matcher) : Nat → Option Char → Str → Str × Nat
  | 0, _, s => (s, 0)
  | _ + 1, _, [] => ([], 0)
  | fuel + 1, prev, c :: rest =>
      match m prev (c :: rest) with
      | some k =>
          let consumed := max k 1
          let r := raGo m fuel ((c :: rest).take consumed).getLast? ((c :: rest).drop consumed)
          (r.1, r.2 + 1)
      | none =>
          let r := raGo m fuel (some c) rest
          (c :: r.1, r.2)

/-- One `content.replace(regex, ...)` pass: the rewritten text and the number
of matches removed. -/
def replaceAllM (m : Matcher) (s : Str) : Str × Nat := raGo m s.length none s

/-- One statement of `stripRepositoriesAndWrapper`: run a pass and accumulate
the change count. -/
def stripPass (acc : Str × Nat) (m : Matcher) : Str × Nat :=
  let r := replaceAllM m acc.1
  (r.1, acc.2 + r.2)

/-- The eleven construct classes removed by `stripRepositoriesAndWrapper`, in
source order (transformationPlanner.ts lines 117–157). -/
def stripMatchers : List Matcher :=
  [liftP repoPat, liftP publishingPat, liftP uploadArchivesPat, liftP modifyPomPat,
   liftP nexusConfigPat, liftP signingPat, wrapperTaskM, liftP applyVersionsPat,
   extBlockM, liftP nexusPropsPat, liftP mavenPublishPat]

/-- Embedding of `stripRepositoriesAndWrapper` (transformationPlanner.ts
lines 111–160): the eleven replacement passes applied in order, with the
total number of removed constructs. -/
def stripRepositoriesAndWrapper (content : Str) : Str × Nat :=
  stripMatchers.foldl stripPass (content, 0)

/-- The `plugins\s*\{` pattern (the injector's replace target, line 170). -/
def pluginsOpenPat : PMatch :=
  seqC (litC (str "plugins")) (seqC wsStarC (charC (· = '{')))

/-- The `id\s+['"]common\.lib['"]` piece of the injector's presence test. -/
def commonLibIdPat : PMatch :=
  seqC (litC (str "id")) (seqC wsPlusC (seqC quoteC (seqC (litC (str "common.lib")) quoteC)))

/-- The remainder of the text after the first (leftmost) match of a pattern,
if the pattern matches anywhere. -/
def scanFor (p : PMatch) : Str → Option Str
  | [] => (p []).map fun _ => ([] : Str)
  | c :: rest =>
      match p (c :: rest) with
      | some k => some ((c :: rest).drop k)
      | none => scanFor p rest

/-- Whether `plugins\s*\{[\s\S]*?id\s+['"]common\.lib['"][\s\S]*?\}` matches
starting at this position: an opening `plugins {`, then somewhere after it
the `common.lib` id, then somewhere after that a closing brace.  Committing
to the first id occurrence is complete because any closing brace after a
later occurrence also lies after the first one. -/
def matchCommonLibAt (t : Str) : Bool :=
  match pluginsOpenPat t with
  | some k =>
      match scanFor commonLibIdPat (t.drop k) with
      | some rem => rem.elem '}'
      | none => false
  | none => false

/-- The `RegExp.test` of line 166: the pattern matches at some position. -/
def hasCommonLib (s : Str) : Bool := s.tails.any matchCommonLibAt

/-- Whether `plugins\s*\{[\s\S]*?\}` matches starting at this position. -/
def matchPluginsBlockAt (t : Str) : Bool :=
  match pluginsOpenPat t with
  | some k => (t.drop k).elem '}'
  | none => false

/-- The `RegExp.test` of line 165. -/
def hasPluginsBlock (s : Str) : Bool := s.tails.any matchPluginsBlockAt

/-- The text inserted after the matched `plugins {` (line 170). -/
def insCommonLib : Str := str "\n    id 'common.lib'"

/-- The plugin block prepended when no plugin block exists (line 172). -/
def pluginsBlockSnippet : Str := str "plugins \x7b\n    id 'common.lib'\n\x7d\n\n"

/-- The `updated.replace(/plugins\s*\{/, m => m + insertion)` of line 170:
the first match of `plugins\s*\{` is replaced by itself followed by the
inserted id line. -/
def replaceFirstPluginsOpen : Str → Str
  | [] => []
  | c :: rest =>
      match pluginsOpenPat (c :: rest) with
      | some k => (c :: rest).take k ++ insCommonLib ++ (c :: rest).drop k
      | none => c :: replaceFirstPluginsOpen rest

/-- Embedding of `ensureCommonLibPlugin` (transformationPlanner.ts lines
162–176): if the `common.lib` id is present, no change; otherwise insert it
into the existing plugin block, or prepend a fresh block. -/
def ensureCommonLibPlugin (content : Str) : Str × Nat :=
  if hasCommonLib content then (content, 0)
  else if hasPluginsBlock content then (replaceFirstPluginsOpen content, 1)
  else (pluginsBlockSnippet ++ content, 1)

theorem raGo_count_zero (m : Matcher) (fuel : Nat) :
    ∀ (prev : Option Char) (s : Str), (raGo m fuel prev s).2 = 0 → (raGo m fuel prev s).1 = s := by
  induction fuel with
  | zero => intro prev s _; rfl
  | succ fuel ih =>
      intro prev s h
      cases s with
      | nil => rfl
      | cons c rest =>
          cases hm : m prev (c :: rest) with
          | some k => simp [raGo, hm] at h
          | none =>
              simp only [raGo, hm] at h ⊢
              rw [ih (some c) rest h]

theorem raGo_length (m : Matcher) (fuel : Nat) :
    ∀ (prev : Option Char) (s : Str), s.length ≤ fuel →
      (raGo m fuel prev s).1.length + (raGo m fuel prev s).2 ≤ s.length := by
  induction fuel with
  | zero => intro prev s _; simp [raGo]
  | succ fuel ih =>
      intro prev s h
      cases s with
      | nil => simp [raGo]
      | cons c rest =>
          simp only [List.length_cons] at h
          cases hm : m prev (c :: rest) with
          | some k =>
              have hdl : ((c :: rest).drop (max k 1)).length ≤ rest.length := by
                simp only [List.length_drop, List.length_cons]
                omega
              have hfl : ((c :: rest).drop (max k 1)).length ≤ fuel := by omega
              have hrec := ih ((c :: rest).take (max k 1)).getLast? ((c :: rest).drop (max k 1)) hfl
              simp only [raGo, hm]
              simp only [List.length_cons]
              omega
          | none =>
              have hrec := ih (some c) rest (by omega)
              simp only [raGo, hm]
              simp only [List.length_cons]
              omega

theorem replaceAllM_count_zero (m : Matcher) (s : Str)
    (h : (replaceAllM m s).2 = 0) : (replaceAllM m s).1 = s :=
  raGo_count_zero m s.length none s h

theorem replaceAllM_length (m : Matcher) (s : Str) :
    (replaceAllM m s).1.length + (replaceAllM m s).2 ≤ s.length :=
  raGo_length m s.length none s (Nat.le_refl _)

theorem stripFold_count_mono (ms : List Matcher) :
    ∀ (s : Str) (n : Nat), n ≤ (ms.foldl stripPass (s, n)).2 := by
  induction ms with
  | nil => intro s n; simp
  | cons m ms ih =>
      intro s n
      simp only [List.foldl_cons, stripPass]
      exact le_trans (Nat.le_add_right n _) (ih _ _)

theorem stripFold_count_eq (ms : List Matcher) :
    ∀ (s : Str) (n : Nat), (ms.foldl stripPass (s, n)).2 = n → (ms.foldl stripPass (s, n)).1 = s := by
  induction ms with
  | nil => intro s n _; rfl
  | cons m ms ih =>
      intro s n h
      simp only [List.foldl_cons, stripPass] at h ⊢
      have hmono := stripFold_count_mono ms (replaceAllM m s).1 (n + (replaceAllM m s).2)
      have hz : (replaceAllM m s).2 = 0 := by omega
      have hs : (replaceAllM m s).1 = s := replaceAllM_count_zero m s hz
      rw [hs] at h ⊢
      rw [hz] at h ⊢
      exact ih s n h

theorem stripFold_length (ms : List Matcher) :
    ∀ (s : Str) (n : Nat),
      (ms.foldl stripPass (s, n)).1.length + (ms.foldl stripPass (s, n)).2 ≤ s.length + n := by
  induction ms with
  | nil => intro s n; simp
  | cons m ms ih =>
      intro s n
      simp only [List.foldl_cons, stripPass]
      have h1 := replaceAllM_length m s
      have h2 := ih (replaceAllM m s).1 (n + (replaceAllM m s).2)
      omega

theorem strip_changes_zero_iff (content : Str) :
    (stripRepositoriesAndWrapper content).2 = 0 ↔
      (stripRepositoriesAndWrapper content).1 = content := by
  constructor
  · intro h
    exact stripFold_count_eq stripMatchers content 0 h
  · intro h
    have hlen := stripFold_length stripMatchers content 0
    rw [show stripMatchers.foldl stripPass (content, 0) = stripRepositoriesAndWrapper content
      from rfl] at hlen
    rw [h] at hlen
    omega

theorem dropWhile_eq_drop_len_takeWhile (p : Char → Bool) (l : Str) :
    l.dropWhile p = l.drop (l.takeWhile p).length := by
  induction l with
  | nil => rfl
  | cons c rest ih =>
      by_cases hc : p c = true
      · simp [List.dropWhile_cons, List.takeWhile_cons, hc, ih]
      · simp only [Bool.not_eq_true] at hc
        simp [List.dropWhile_cons, List.takeWhile_cons, hc]

theorem takeWhile_all_append {p : Char → Bool} {ws : Str} (h : ws.all p = true)
    {c : Char} (hc : p c = false) (r : Str) :
    ((ws ++ c :: r).takeWhile p = ws) ∧ ((ws ++ c :: r).drop ws.length = c :: r) := by
  constructor
  · induction ws with
    | nil => simp [List.takeWhile_cons, hc]
    | cons w ws ih =>
        simp only [List.all_cons, Bool.and_eq_true] at h
        simp [List.takeWhile_cons, h.1, ih h.2]
  · exact List.drop_left ws (c :: r)

theorem pluginsOpen_some_shape {t : Str} {k : Nat} (h : pluginsOpenPat t = some k) :
    ∃ ws rest, t = str "plugins" ++ ws ++ '{' :: rest ∧ ws.all jsSpace = true ∧
      k = ws.length + 8 := by
  simp only [pluginsOpenPat, seqC, litC, wsStarC, charC] at h
  by_cases hp : (str "plugins").isPrefixOf t = true
  · rw [if_pos hp] at h
    obtain ⟨t1, ht1⟩ := (List.isPrefixOf_iff_prefix.mp hp)
    have h7 : (str "plugins").length = 7 := rfl
    rw [h7] at h
    simp only [Option.some_bind] at h
    have hdrop7 : t.drop 7 = t1 := by
      rw [← ht1, ← h7]
      exact List.drop_left _ _
    rw [hdrop7] at h
    cases hdw : t1.drop (t1.takeWhile jsSpace).length with
    | nil =>
        rw [hdw] at h
        simp at h
    | cons c2 rest =>
        rw [hdw] at h
        by_cases hc2 : c2 = '{'
        · subst hc2
          simp at h
          refine ⟨t1.takeWhile jsSpace, rest, ?_, ?_, ?_⟩
          · rw [← ht1, List.append_assoc]
            congr 1
            rw [← hdw]
            conv_lhs => rw [← List.takeWhile_append_dropWhile (p := jsSpace) (l := t1)]
            rw [dropWhile_eq_drop_len_takeWhile]
          · exact List.all_eq_true.mpr fun x hx => List.mem_takeWhile_imp hx
          · omega
        · simp [hc2] at h
  · rw [if_neg (by simpa using hp)] at h
    simp at h

theorem pluginsOpen_eval {ws : Str} (hws : ws.all jsSpace = true) (r : Str) :
    pluginsOpenPat (str "plugins" ++ ws ++ '{' :: r) = some (ws.length + 8) := by
  have hpre : (str "plugins").isPrefixOf (str "plugins" ++ ws ++ '{' :: r) = true := by
    rw [List.isPrefixOf_iff_prefix, List.append_assoc]
    exact ⟨ws ++ '{' :: r, rfl⟩
  have h7 : (str "plugins").length = 7 := rfl
  have hdrop7 : (str "plugins" ++ ws ++ '{' :: r).drop 7 = ws ++ '{' :: r := by
    rw [List.append_assoc, ← h7]
    exact List.drop_left _ _
  have htw := takeWhile_all_append hws (c := '{') (by decide) r
  simp only [pluginsOpenPat, seqC, litC, wsStarC, charC, hpre, if_pos, h7,
    Option.some_bind, hdrop7, htw.1, htw.2]
  simp [Nat.add_comm, Nat.add_assoc]

theorem pluginsOpen_head {t : Str} {k : Nat} (h : pluginsOpenPat t = some k) :
    ∃ t', t = 'p' :: t' := by
  obtain ⟨ws, rest, heq, _, _⟩ := pluginsOpen_some_shape h
  exact ⟨(str "lugins" ++ ws) ++ '{' :: rest, by rw [heq]; rfl⟩

theorem suffix_of_suffix_length_le {t₁ t₂ l : Str} (h₁ : t₁ <:+ l) (h₂ : t₂ <:+ l)
    (hlen : t₁.length ≤ t₂.length) : t₁ <:+ t₂ := by
  obtain ⟨p₁, hp₁⟩ := h₁
  obtain ⟨p₂, hp₂⟩ := h₂
  have hl : p₁.length + t₁.length = p₂.length + t₂.length := by
    have := congrArg List.length (hp₁.trans hp₂.symm)
    simpa [List.length_append] using this
  have key : l.drop p₁.length = t₁ := by
    rw [← hp₁]
    exact List.drop_left _ _
  have key2 : l.drop (p₂.length + (t₂.length - t₁.length)) =
      t₂.drop (t₂.length - t₁.length) := by
    rw [← hp₂, List.drop_append_eq_append_drop]
    have hz : p₂.drop (p₂.length + (t₂.length - t₁.length)) = [] :=
      List.drop_eq_nil_of_le (by omega)
    rw [hz, List.nil_append]
    congr 1
    omega
  have e2 : p₂.length + (t₂.length - t₁.length) = p₁.length := by omega
  rw [e2, key] at key2
  refine ⟨t₂.take (t₂.length - t₁.length), ?_⟩
  have hta := List.take_append_drop (t₂.length - t₁.length) t₂
  rw [← key2] at hta
  exact hta

theorem suffix_append_cases {t l₁ l₂ : Str} (h : t <:+ l₁ ++ l₂) :
    t <:+ l₂ ∨ ∃ l₁', l₁' <:+ l₁ ∧ l₁' ≠ [] ∧ t = l₁' ++ l₂ := by
  by_cases hlen : t.length ≤ l₂.length
  · exact Or.inl (suffix_of_suffix_length_le h (List.suffix_append l₁ l₂) hlen)
  · right
    obtain ⟨p, hp⟩ := h
    refine ⟨t.take (t.length - l₂.length), ?_, ?_, ?_⟩
    · -- t = take ++ drop, and t.drop (t.length - l₂.length) = l₂
      have hdl : t.drop (t.length - l₂.length) = l₂ := by
        have hlen2 : (p ++ t).length = (l₁ ++ l₂).length := by rw [hp]
        simp only [List.length_append] at hlen2
        have : t.drop (t.length - l₂.length) = (p ++ t).drop ((p ++ t).length - l₂.length) := by
          rw [List.drop_append_eq_append_drop]
          have h1 : (p ++ t).length - l₂.length - p.length = t.length - l₂.length := by
            simp only [List.length_append]; omega
          have h2 : p.drop ((p ++ t).length - l₂.length) = [] := by
            apply List.drop_eq_nil_of_le
            simp only [List.length_append]; omega
          rw [h2, h1]
          simp
        rw [this, hp]
        rw [List.drop_append_eq_append_drop]
        have h3 : l₁.drop ((l₁ ++ l₂).length - l₂.length) = [] := by
          apply List.drop_eq_nil_of_le
          simp only [List.length_append]; omega
        have h4 : (l₁ ++ l₂).length - l₂.length - l₁.length = 0 := by
          simp only [List.length_append]; omega
        rw [h3, h4]
        simp
      -- take is a suffix of l₁:
      have : l₁ = p ++ t.take (t.length - l₂.length) := by
        have := congrArg (List.take ((l₁ ++ l₂).length - l₂.length)) hp
        rw [List.take_append_eq_append_take] at this
        have hlen2 : (p ++ t).length = (l₁ ++ l₂).length := by rw [hp]
        simp only [List.length_append] at hlen2
        have hpt : (l₁ ++ l₂).length - l₂.length = l₁.length := by
          simp only [List.length_append]; omega
        rw [hpt] at this
        rw [List.take_left] at this
        rw [List.take_of_length_le (by omega)] at this
        have harg : l₁.length - p.length = t.length - l₂.length := by omega
        rw [harg] at this
        exact this.symm
      exact ⟨p, this.symm⟩
    · intro hnil
      have := congrArg List.length hnil
      simp only [List.length_take] at this
      simp at this
      omega
    · conv_lhs => rw [← List.take_append_drop (t.length - l₂.length) t]
      congr 1
      -- drop = l₂ shown above; re-derive
      have hlen2 : (p ++ t).length = (l₁ ++ l₂).length := by rw [hp]
      simp only [List.length_append] at hlen2
      have : t.drop (t.length - l₂.length) = (p ++ t).drop ((p ++ t).length - l₂.length) := by
        rw [List.drop_append_eq_append_drop]
        have h1 : (p ++ t).length - l₂.length - p.length = t.length - l₂.length := by
          simp only [List.length_append]; omega
        have h2 : p.drop ((p ++ t).length - l₂.length) = [] := by
          apply List.drop_eq_nil_of_le
          simp only [List.length_append]; omega
        rw [h2, h1]
        simp
      rw [this, hp]
      rw [List.drop_append_eq_append_drop]
      have h3 : l₁.drop ((l₁ ++ l₂).length - l₂.length) = [] := by
        apply List.drop_eq_nil_of_le
        simp only [List.length_append]; omega
      have h4 : (l₁ ++ l₂).length - l₂.length - l₁.length = 0 := by
        simp only [List.length_append]; omega
      rw [h3, h4]
      simp

theorem replaceFirstPluginsOpen_spec (s : Str) :
    (replaceFirstPluginsOpen s = s ∧ ∀ t, t <:+ s → pluginsOpenPat t = none) ∨
    (∃ u v k, s = u ++ v ∧ pluginsOpenPat v = some k ∧
      replaceFirstPluginsOpen s = u ++ (v.take k ++ insCommonLib ++ v.drop k) ∧
      ∀ t, t <:+ s → v.length < t.length → pluginsOpenPat t = none) := by
  induction s with
  | nil =>
      left
      refine ⟨rfl, ?_⟩
      intro t ht
      rw [List.suffix_nil.mp ht]
      rfl
  | cons c rest ih =>
      cases hm : pluginsOpenPat (c :: rest) with
      | some k =>
          right
          refine ⟨[], c :: rest, k, rfl, hm, ?_, ?_⟩
          · simp [replaceFirstPluginsOpen, hm]
          · intro t ht hlen
            exact absurd ht.length_le (by omega)
      | none =>
          rcases ih with ⟨h1, h2⟩ | ⟨u, v, k, hs, hv, hout, hleft⟩
          · left
            refine ⟨?_, ?_⟩
            · simp [replaceFirstPluginsOpen, hm, h1]
            · intro t ht
              rcases List.suffix_cons_iff.mp ht with heq | hsuf
              · rw [heq]; exact hm
              · exact h2 t hsuf
          · right
            refine ⟨c :: u, v, k, by rw [List.cons_append, ← hs], hv, ?_, ?_⟩
            · simp [replaceFirstPluginsOpen, hm, hout]
            · intro t ht hlen
              rcases List.suffix_cons_iff.mp ht with heq | hsuf
              · rw [heq]; exact hm
              · exact hleft t hsuf hlen

theorem jsSpace_ne_p {x : Char} (h : jsSpace x = true) : x ≠ 'p' := by
  intro hx
  subst hx
  simp [jsSpace] at h

theorem proper_suffix_head_ne_p {ws : Str} (hws : ws.all jsSpace = true) {m' : Str}
    (hsuf : m' <:+ str "plugins" ++ ws ++ ['{'])
    (hne : m' ≠ str "plugins" ++ ws ++ ['{']) {x : Char} {m'' : Str} (hm' : m' = x :: m'') :
    x ≠ 'p' := by
  have hfull : str "plugins" ++ ws ++ ['{'] = 'p' :: (str "lugins" ++ ws ++ ['{']) := rfl
  rw [hfull] at hsuf hne
  rcases List.suffix_cons_iff.mp hsuf with heq | hsuf2
  · exact absurd heq hne
  · have hx : x ∈ str "lugins" ++ ws ++ ['{'] := by
      apply hsuf2.subset
      rw [hm']
      exact List.mem_cons_self _ _
    rcases List.mem_append.mp hx with hx1 | hx2
    · rcases List.mem_append.mp hx1 with hx3 | hx4
      · have hlu : str "lugins" = ['l', 'u', 'g', 'i', 'n', 's'] := rfl
        rw [hlu] at hx3
        have : x = 'l' ∨ x = 'u' ∨ x = 'g' ∨ x = 'i' ∨ x = 'n' ∨ x = 's' := by
          simpa using hx3
        rcases this with rfl | rfl | rfl | rfl | rfl | rfl <;> decide
      · exact jsSpace_ne_p (List.all_eq_true.mp hws x hx4)
    · have hx5 : x = '{' := by simpa using hx2
      rw [hx5]
      decide

theorem scanFor_insCommonLib (X : Str) : scanFor commonLibIdPat (insCommonLib ++ X) = some X := by
  simp [scanFor, commonLibIdPat, seqC, litC, wsStarC, charC, quoteC, wsPlusC, str,
    List.isPrefixOf, List.takeWhile, List.cons_append, jsSpace, insCommonLib]

theorem matchCommonLibAt_snippet (c : Str) : matchCommonLibAt (pluginsBlockSnippet ++ c) = true := by
  simp [matchCommonLibAt, pluginsOpenPat, pluginsBlockSnippet, scanFor, commonLibIdPat,
    seqC, litC, wsStarC, charC, quoteC, wsPlusC, str, List.isPrefixOf, List.takeWhile,
    List.cons_append, jsSpace]

theorem matchCommonLibAt_eval {ws : Str} (hws : ws.all jsSpace = true) (X : Str)
    (hbr : X.elem '}' = true) :
    matchCommonLibAt (str "plugins" ++ ws ++ '{' :: (insCommonLib ++ X)) = true := by
  have hdrop : (str "plugins" ++ ws ++ '{' :: (insCommonLib ++ X)).drop (ws.length + 8) =
      insCommonLib ++ X := by
    have hassoc : str "plugins" ++ ws ++ '{' :: (insCommonLib ++ X) =
        (str "plugins" ++ ws ++ ['{']) ++ (insCommonLib ++ X) := by simp
    rw [hassoc]
    have hlen : (str "plugins" ++ ws ++ ['{']).length = ws.length + 8 := by
      simp [str, List.length_append]
    rw [← hlen]
    exact List.drop_left _ _
  simp only [matchCommonLibAt, pluginsOpen_eval hws, hdrop, scanFor_insCommonLib]
  exact hbr

theorem hasCommonLib_replaceFirst {c : Str} (h : hasPluginsBlock c = true) :
    hasCommonLib (replaceFirstPluginsOpen c) = true := by
  rw [hasPluginsBlock, List.any_eq_true] at h
  obtain ⟨t0, ht0mem, ht0⟩ := h
  rw [List.mem_tails] at ht0mem
  have hx : ∃ k0, pluginsOpenPat t0 = some k0 ∧ (t0.drop k0).elem '}' = true := by
    unfold matchPluginsBlockAt at ht0
    cases hk : pluginsOpenPat t0 with
    | none => rw [hk] at ht0; simp at ht0
    | some k0 =>
        rw [hk] at ht0
        simp only [] at ht0
        exact ⟨k0, rfl, ht0⟩
  clear ht0
  obtain ⟨k0, hk0, ht0⟩ := hx
  rcases replaceFirstPluginsOpen_spec c with ⟨_, hnone⟩ | ⟨u, v, k, hs, hv, hout, hleft⟩
  · rw [hnone t0 ht0mem] at hk0; exact absurd hk0 (by simp)
  · obtain ⟨ws, rest, hveq, hws, hkeq⟩ := pluginsOpen_some_shape hv
    have hvsuf : v <:+ c := by rw [hs]; exact List.suffix_append u v
    have hMlen : (str "plugins" ++ ws ++ ['{']).length = ws.length + 8 := by
      simp [str, List.length_append]
    have hvM : v = (str "plugins" ++ ws ++ ['{']) ++ rest := by
      rw [hveq]; simp
    have hdropk : v.drop k = rest := by
      rw [hvM, hkeq, ← hMlen]
      exact List.drop_left _ _
    have htakek : v.take k = str "plugins" ++ ws ++ ['{'] := by
      rw [hvM, hkeq, ← hMlen]
      exact List.take_left _ _
    -- the closing brace lies after the inserted id
    have hbrace : rest.elem '}' = true := by
      have hlen0 : t0.length ≤ v.length := by
        by_contra hgt
        push_neg at hgt
        rw [hleft t0 ht0mem hgt] at hk0
        exact absurd hk0 (by simp)
      have ht0v : t0 <:+ v := suffix_of_suffix_length_le ht0mem hvsuf hlen0
      rw [hvM] at ht0v
      rcases suffix_append_cases ht0v with hcase | ⟨m', hm'suf, hm'ne, hteq⟩
      · -- t0 is a suffix of rest
        rw [List.elem_iff] at ht0 ⊢
        exact hcase.subset (List.drop_subset k0 t0 ht0)
      · by_cases hfull : m' = str "plugins" ++ ws ++ ['{']
        · -- t0 = v
          have ht0eqv : t0 = v := by rw [hteq, hfull, hvM]
          rw [ht0eqv, hv] at hk0
          have hk0k : k0 = k := by injection hk0 with h'; exact h'.symm
          rw [ht0eqv, hk0k, hdropk] at ht0
          exact ht0

        · cases hm'shape : m' with
          | nil => simp [hm'shape] at hm'ne
          | cons x m'' =>
              have hxp : x ≠ 'p' := proper_suffix_head_ne_p hws hm'suf hfull hm'shape
              have : ∃ t', t0 = 'p' :: t' := pluginsOpen_head hk0
              obtain ⟨t', ht'⟩ := this
              rw [hteq, hm'shape] at ht'
              simp at ht'
              exact absurd ht'.1 hxp
    rw [hasCommonLib, List.any_eq_true]
    refine ⟨v.take k ++ insCommonLib ++ v.drop k, ?_, ?_⟩
    · rw [List.mem_tails, hout]
      exact List.suffix_append u _
    · rw [htakek, hdropk]
      have : (str "plugins" ++ ws ++ ['{']) ++ insCommonLib ++ rest =
          str "plugins" ++ ws ++ '{' :: (insCommonLib ++ rest) := by simp
      rw [this]
      exact matchCommonLibAt_eval hws rest hbrace

theorem hasCommonLib_snippet (c : Str) : hasCommonLib (pluginsBlockSnippet ++ c) = true := by
  rw [hasCommonLib, List.any_eq_true]
  exact ⟨pluginsBlockSnippet ++ c, (List.mem_tails _ _).mpr (List.suffix_refl _),
    matchCommonLibAt_snippet c⟩

theorem replaceFirst_length_of_block {c : Str} (h : hasPluginsBlock c = true) :
    (replaceFirstPluginsOpen c).length = c.length + 20 := by
  rw [hasPluginsBlock, List.any_eq_true] at h
  obtain ⟨t0, ht0mem, ht0⟩ := h
  rw [List.mem_tails] at ht0mem
  have hx : ∃ k0, pluginsOpenPat t0 = some k0 := by
    unfold matchPluginsBlockAt at ht0
    cases hk : pluginsOpenPat t0 with
    | none => rw [hk] at ht0; simp at ht0
    | some k0 => exact ⟨k0, rfl⟩
  obtain ⟨k0, hk0⟩ := hx
  rcases replaceFirstPluginsOpen_spec c with ⟨_, hnone⟩ | ⟨u, v, k, hs, hv, hout, _⟩
  · rw [hnone t0 ht0mem] at hk0; exact absurd hk0 (by simp)
  · rw [hout, hs]
    have hins : insCommonLib.length = 20 := rfl
    simp only [List.length_append, hins]
    have := congrArg List.length (List.take_append_drop k v)
    simp only [List.length_append] at this
    omega

theorem ensure_changes_zero_iff (content : Str) :
    (ensureCommonLibPlugin content).2 = 0 ↔ (ensureCommonLibPlugin content).1 = content := by
  by_cases h1 : hasCommonLib content = true
  · simp [ensureCommonLibPlugin, h1]
  · by_cases h2 : hasPluginsBlock content = true
    · have hlen := replaceFirst_length_of_block h2
      simp only [ensureCommonLibPlugin, h1, h2]
      simp only [Bool.not_eq_true] at h1
      simp [h1, h2]
      intro heq
      rw [heq] at hlen
      omega
    · simp only [ensureCommonLibPlugin, h1, h2]
      simp only [Bool.not_eq_true] at h1 h2
      simp only [h1, h2, Bool.false_eq_true, if_false]
      constructor
      · intro h3
        simp at h3
      · intro heq
        have hlen2 := congrArg List.length heq
        simp only [List.length_append] at hlen2
        have hsn : pluginsBlockSnippet.length = 33 := rfl
        omega

/-- C6 (amended): the Plugin Injector `ensureCommonLibPlugin` is idempotent
for every input text: applying it to its own output reports zero changes and
leaves the text unchanged.  (The Legacy Block Stripper is not: see the
counterexample.) -/
theorem ensureCommonLibPlugin_idempotent (content : Str) :
    (ensureCommonLibPlugin (ensureCommonLibPlugin content).1).2 = 0 ∧
    (ensureCommonLibPlugin (ensureCommonLibPlugin content).1).1 =
      (ensureCommonLibPlugin content).1 := by
  by_cases h1 : hasCommonLib content = true
  · simp [ensureCommonLibPlugin, h1]
  · by_cases h2 : hasPluginsBlock content = true
    · have hout := hasCommonLib_replaceFirst h2
      simp [ensureCommonLibPlugin, h1, h2, hout]
    · have hout := hasCommonLib_snippet content
      simp [ensureCommonLibPlugin, h1, h2, hout]

set_option maxHeartbeats 2000000 in
/-- C6 (counterexample): the Legacy Block Stripper is not idempotent.  On
`"repositories repositories {a} {b}"` the first application removes the inner
`repositories {a}` block (one change), which joins the leading `repositories`
with the leftover ` {b}` into a new match, so the second application reports
one further change instead of zero. -/
theorem stripRepositoriesAndWrapper_not_idempotent_cex :
    (stripRepositoriesAndWrapper (str "repositories repositories \x7ba\x7d \x7bb\x7d")).2 = 1 ∧
    (stripRepositoriesAndWrapper
      (stripRepositoriesAndWrapper (str "repositories repositories \x7ba\x7d \x7bb\x7d")).1).2
      = 1 ∧
    (stripRepositoriesAndWrapper
      (stripRepositoriesAndWrapper (str "repositories repositories \x7ba\x7d \x7bb\x7d")).1).1
      ≠ (stripRepositoriesAndWrapper (str "repositories repositories \x7ba\x7d \x7bb\x7d")).1 := by
  refine ⟨by decide, by decide, by decide⟩

/-- C10: for every input text, `stripRepositoriesAndWrapper` and
`ensureCommonLibPlugin` each report zero changes exactly when their output
equals their input, and consequently the orchestrator's write-back guard
`changes > 0 && updated !== original` is equivalent to the combined
stripper-then-injector output actually differing from the original. -/
theorem changes_zero_iff_unchanged (content : Str) :
    ((stripRepositoriesAndWrapper content).2 = 0 ↔
      (stripRepositoriesAndWrapper content).1 = content) ∧
    ((ensureCommonLibPlugin content).2 = 0 ↔ (ensureCommonLibPlugin content).1 = content) ∧
    ((0 < (stripRepositoriesAndWrapper content).2 +
          (ensureCommonLibPlugin (stripRepositoriesAndWrapper content).1).2 ∧
        (ensureCommonLibPlugin (stripRepositoriesAndWrapper content).1).1 ≠ content) ↔
      (ensureCommonLibPlugin (stripRepositoriesAndWrapper content).1).1 ≠ content) := by
  refine ⟨strip_changes_zero_iff content, ensure_changes_zero_iff content, ?_, ?_⟩
  · exact fun h => h.2
  · intro hne
    refine ⟨?_, hne⟩
    by_contra hz
    have hsum : (stripRepositoriesAndWrapper content).2 +
        (ensureCommonLibPlugin (stripRepositoriesAndWrapper content).1).2 = 0 :=
      Nat.eq_zero_of_not_pos hz
    have ha : (stripRepositoriesAndWrapper content).2 = 0 :=
      Nat.eq_zero_of_add_eq_zero_right hsum
    have hb : (ensureCommonLibPlugin (stripRepositoriesAndWrapper content).1).2 = 0 :=
      Nat.eq_zero_of_add_eq_zero_left hsum
    have h1 := (strip_changes_zero_iff content).mp ha
    have h2 := (ensure_changes_zero_iff (stripRepositoriesAndWrapper content).1).mp hb
    exact hne (h2.trans h1)

/-- Parser for one occurrence of `gradle-([0-9]+\.[0-9]+(?:\.[0-9]+)?)-` at
the current position: returns the captured version and the total matched
length.  The digit runs are maximal, which is the unique parse since a digit
run cannot contain `.` or `-`. -/
def parseVerAt (s : Str) : Option (Str × Nat) :=
  if (str "gradle-").isPrefixOf s then
    let rest := s.drop 7
    let d1 := rest.takeWhile isDigitC
    if d1.isEmpty then none
    else
      match rest.drop d1.length with
      | '.' :: rest3 =>
          let d2 := rest3.takeWhile isDigitC
          if d2.isEmpty then none
          else
            match rest3.drop d2.length with
            | '.' :: rest5 =>
                let d3 := rest5.takeWhile isDigitC
                if (!d3.isEmpty) && ((rest5.drop d3.length).head? == some '-') then
                  some (d1 ++ '.' :: d2 ++ '.' :: d3,
                    7 + d1.length + 1 + d2.length + 1 + d3.length + 1)
                else none
            | '-' :: _ => some (d1 ++ '.' :: d2, 7 + d1.length + 1 + d2.length + 1)
            | _ => none
      | _ => none
  else none

/-- The last occurrence of the version pattern in a line suffix, as
(start index, matched length, captured version); the greedy `.*` of the
wrapper regexes selects the last occurrence. -/
def lastVerOcc : Str → Option (Nat × Nat × Str)
  | [] => none
  | c :: rest =>
      match lastVerOcc rest with
      | some (i, len, v) => some (i + 1, len, v)
      | none => (parseVerAt (c :: rest)).map fun pv => (0, pv.2, pv.1)

/-- The match of `distributionUrl=.*gradle-([0-9]+\.[0-9]+(?:\.[0-9]+)?)-` on
one line (the dot does not cross newlines): the match starts at the first
`distributionUrl=` occurrence and extends through the last version
occurrence after it; returns (start, length, captured version). -/
def lineWrapperMatch (line : Str) : Option (Nat × Nat × Str) :=
  match indexOfSub (str "distributionUrl=") line with
  | none => none
  | some p =>
      match lastVerOcc (line.drop (p + 16)) with
      | none => none
      | some (i, len, v) => some (p, 16 + i + len, v)

/-- The captured version of the first line that matches. -/
def extractVerLines : List Str → Option Str
  | [] => none
  | l :: ls =>
      match lineWrapperMatch l with
      | some x => some x.2.2
      | none => extractVerLines ls

/-- The version-extraction regex of `updateGradleWrapperProperties`
(transformationPlanner.ts line 1727): the first match's capture group. -/
def extractGradleVersion (content : Str) : Option Str :=
  extractVerLines (splitNl content)

/-- The replacement text `distributionUrl=https\://services.gradle.org/distributions/gradle-${currentVersion}-`
(line 1742). -/
def replWrapper (v : Str) : Str :=
  str "distributionUrl=https\\://services.gradle.org/distributions/gradle-" ++ v ++ str "-"

/-- Replace the first (and only the first) match of the distribution-URL
pattern with the rewritten URL carrying the preserved version (line 1740). -/
def replaceDistUrlLines (v : Str) : List Str → List Str
  | [] => []
  | l :: ls =>
      match lineWrapperMatch l with
      | some x => (l.take x.1 ++ replWrapper v ++ l.drop (x.1 + x.2.1)) :: ls
      | none => l :: replaceDistUrlLines v ls

/-- The content written by `updateGradleWrapperProperties`
(transformationPlanner.ts lines 1712–1755): the meta template with its
distribution version replaced by the version extracted from the existing
wrapper file, defaulting to `6.8` when the file is absent or matches
nothing. -/
def updateWrapperContent (metaContent : Str) (existing : Option Str) : Str :=
  let currentVersion :=
    match existing with
    | some c => (extractGradleVersion c).getD (str "6.8")
    | none => str "6.8"
  joinNl (replaceDistUrlLines currentVersion (splitNl metaContent))

/-- A representative fixed wrapper-properties template, standing for the
`.copilot/meta/gradle-wrapper.properties` template file shipped outside the
sources; its distribution version is 8.5. -/
def wrapperTemplate : Str :=
  str "distributionBase=GRADLE_USER_HOME\ndistributionPath=wrapper/dists\ndistributionUrl=https\\://services.gradle.org/distributions/gradle-8.5-bin.zip\nzipStoreBase=GRADLE_USER_HOME\nzipStorePath=wrapper/dists\n"

/-- The template text before its distribution URL. -/
def wrapperTemplatePre : Str :=
  str "distributionBase=GRADLE_USER_HOME\ndistributionPath=wrapper/dists\n"

/-- The template text from `bin.zip` onwards. -/
def wrapperTemplatePost : Str :=
  str "bin.zip\nzipStoreBase=GRADLE_USER_HOME\nzipStorePath=wrapper/dists\n"

set_option maxRecDepth 40000 in
/-- C4 (amended): the wrapper step does negotiate with the pre-existing
wrapper file: for every existing wrapper content whose distribution version
extracts to `v`, the written file is the template with its distribution
version replaced by `v` — so the written file differs from the template
byte-for-byte whenever `v` is not the template's own version. -/
theorem updateWrapperContent_preserves_version (existing v : Str)
    (hv : extractGradleVersion existing = some v) :
    updateWrapperContent wrapperTemplate (some existing) =
      wrapperTemplatePre ++ replWrapper v ++ wrapperTemplatePost ∧
    (v ≠ str "8.5" →
      updateWrapperContent wrapperTemplate (some existing) ≠ wrapperTemplate) := by
  have h1 : updateWrapperContent wrapperTemplate (some existing) =
      wrapperTemplatePre ++ replWrapper v ++ wrapperTemplatePost := by
    simp only [updateWrapperContent, hv, Option.getD_some]
    simp [wrapperTemplate, wrapperTemplatePre, wrapperTemplatePost, replaceDistUrlLines,
      lineWrapperMatch, indexOfSub, lastVerOcc, parseVerAt, splitNl, joinNl, str,
      List.isPrefixOf, List.takeWhile, isDigitC, replWrapper, List.append_assoc]
  refine ⟨h1, ?_⟩
  intro hne heq
  rw [h1] at heq
  have hT : wrapperTemplate =
      wrapperTemplatePre ++ replWrapper (str "8.5") ++ wrapperTemplatePost := by decide
  rw [hT] at heq
  rw [List.append_assoc, List.append_assoc] at heq
  have h2 := List.append_cancel_left heq
  have h3 := List.append_cancel_right h2
  simp only [replWrapper] at h3
  have h4 := List.append_cancel_right h3
  have h5 := List.append_cancel_left h4
  exact hne h5

set_option maxRecDepth 40000 in
/-- Witness for `updateWrapperContent_preserves_version` at a concrete
existing wrapper file with version 6.7. -/
theorem updateWrapperContent_preserves_version_witness :
    updateWrapperContent wrapperTemplate
        (some (str "distributionUrl=https\\://services.gradle.org/distributions/gradle-6.7-bin.zip")) =
      wrapperTemplatePre ++ replWrapper (str "6.7") ++ wrapperTemplatePost ∧
    (str "6.7" ≠ str "8.5" →
      updateWrapperContent wrapperTemplate
          (some (str "distributionUrl=https\\://services.gradle.org/distributions/gradle-6.7-bin.zip")) ≠
        wrapperTemplate) :=
  updateWrapperContent_preserves_version
    (str "distributionUrl=https\\://services.gradle.org/distributions/gradle-6.7-bin.zip")
    (str "6.7") (by decide)

set_option maxRecDepth 40000 in
/-- C4 (counterexample): with an existing wrapper at version 6.7, the file
written by the wrapper step is not the template byte-for-byte — its
distribution URL carries the preserved 6.7 version. -/
theorem updateWrapperContent_not_verbatim_cex :
    updateWrapperContent wrapperTemplate
        (some (str "distributionUrl=https\\://services.gradle.org/distributions/gradle-6.7-bin.zip")) ≠
      wrapperTemplate ∧
    extractGradleVersion
        (updateWrapperContent wrapperTemplate
          (some (str "distributionUrl=https\\://services.gradle.org/distributions/gradle-6.7-bin.zip"))) =
      some (str "6.7") := by
  refine ⟨by decide, by decide⟩

mutual
/-- A filesystem tree: files and directories; a directory carries a
readability flag (readdirSync on an unreadable directory throws). -/
inductive FTree where
  | file (name : Str) : FTree
  | dir (name : Str) (readable : Bool) (entries : FForest) : FTree
/-- The entries of a directory. -/
inductive FForest where
  | nil : FForest
  | cons (t : FTree) (ts : FForest) : FForest
end

/-- The `/build\.gradle(\.kts)?$/` file-name test of `findGradleFiles`
(gradleParser.ts line 91). -/
def isGradleFileName (n : Str) : Bool :=
  (str "build.gradle").isSuffixOf n || (str "build.gradle.kts").isSuffixOf n

mutual
/-- Traversal of one directory entry by `findGradleFiles` (gradleParser.ts
lines 81–97): a matching file is collected, a directory is visited; there is
no try/catch, so an unreadable directory propagates an error. -/
def scanTree : FTree → Except Unit (List Str)
  | .file n => .ok (if isGradleFileName n then [n] else [])
  | .dir _ rd entries => if rd then scanForest entries else .error ()
/-- Traversal of a list of entries: errors propagate and abort the scan. -/
def scanForest : FForest → Except Unit (List Str)
  | .nil => .ok []
  | .cons t ts =>
      match scanTree t with
      | .error e => .error e
      | .ok a =>
          match scanForest ts with
          | .error e => .error e
          | .ok b => .ok (a ++ b)
end

/-- Embedding of `findGradleFiles` (gradleParser.ts lines 81–97): a missing
root, a non-directory root, or an unreadable root directory throws; the
entries are otherwise traversed with no error recovery. -/
def findGradleFiles (root : Option FTree) : Except Unit (List Str) :=
  match root with
  | none => .error ()
  | some (.file _) => .error ()
  | some (.dir _ rd entries) => if rd then scanForest entries else .error ()

mutual
/-- Whether a tree contains an unreadable directory anywhere. -/
def hasUnreadableDir : FTree → Bool
  | .file _ => false
  | .dir _ rd entries => !rd || hasUnreadableF entries
/-- Whether a forest contains an unreadable directory anywhere. -/
def hasUnreadableF : FForest → Bool
  | .nil => false
  | .cons t ts => hasUnreadableDir t || hasUnreadableF ts
end

mutual
theorem scanTree_error : ∀ t : FTree, hasUnreadableDir t = true → scanTree t = .error ()
  | .file n => by simp [hasUnreadableDir]
  | .dir name rd entries => by
      intro h
      simp only [hasUnreadableDir, Bool.or_eq_true, Bool.not_eq_true'] at h
      rcases h with h | h
      · simp [scanTree, h]
      · cases hrd : rd with
        | false => simp [scanTree]
        | true => simp [scanTree, scanForest_error entries h]
theorem scanForest_error : ∀ ts : FForest, hasUnreadableF ts = true → scanForest ts = .error ()
  | .nil => by simp [hasUnreadableF]
  | .cons t ts => by
      intro h
      simp only [hasUnreadableF, Bool.or_eq_true] at h
      rcases h with h | h
      · simp [scanForest, scanTree_error t h]
      · cases hst : scanTree t with
        | error e => simp [scanForest, hst]
        | ok a => simp [scanForest, hst, scanForest_error ts h]
end

/-- C9 (amended): a missing project root is a fatal error, and an unreadable
subdirectory encountered during traversal is fatal too — `findGradleFiles`
has no error recovery, so the scan aborts with the error instead of
returning the build-descriptor files found in the readable parts. -/
theorem findGradleFiles_unreadable_fatal (name : Str) (entries : FForest)
    (h : hasUnreadableF entries = true) :
    findGradleFiles none = .error () ∧
    findGradleFiles (some (.dir name true entries)) = .error () := by
  refine ⟨rfl, ?_⟩
  simp [findGradleFiles, scanForest_error entries h]

/-- Witness for `findGradleFiles_unreadable_fatal` on a concrete tree with a
readable root and one unreadable subdirectory. -/
theorem findGradleFiles_unreadable_fatal_witness :
    findGradleFiles none = .error () ∧
    findGradleFiles (some (.dir (str "root") true
      (.cons (.file (str "build.gradle")) (.cons (.dir (str "sub") false .nil) .nil)))) =
      .error () :=
  findGradleFiles_unreadable_fatal (str "root")
    (.cons (.file (str "build.gradle")) (.cons (.dir (str "sub") false .nil) .nil)) (by rfl)

/-- C9 (counterexample): a project tree with a readable root containing a
build-descriptor file and one unreadable subdirectory: the scan does not
return the files found in the readable parts — it aborts with the error. -/
theorem findGradleFiles_not_partial_cex :
    findGradleFiles (some (.dir (str "proj") true
      (.cons (.file (str "build.gradle")) (.cons (.dir (str "bad") false .nil) .nil)))) =
      .error () ∧
    findGradleFiles (some (.dir (str "proj") true
      (.cons (.file (str "build.gradle")) (.cons (.dir (str "bad") false .nil) .nil)))) ≠
      .ok [str "build.gradle"] := by
  refine ⟨rfl, ?_⟩
  intro h
  rw [show findGradleFiles (some (.dir (str "proj") true
      (.cons (.file (str "build.gradle")) (.cons (.dir (str "bad") false .nil) .nil)))) =
      .error () from rfl] at h
  exact Except.noConfusion h

/-- A global-regex match collector with a parsed payload per match, with the
same continue-after-match semantics as `replaceAllM` (fuelled by the text
length; every match consumes at least one character). -/
def faGo {α : Type} (m : Str → Option (Nat × α)) : Nat → Str → List α
  | 0, _ => []
  | _ + 1, [] => []
  | fuel + 1, c :: rest =>
      match m (c :: rest) with
      | some (k, a) => a :: faGo m fuel ((c :: rest).drop (max k 1))
      | none => faGo m fuel rest

/-- All matches of a pattern in scan order (`String.prototype.match` with a
global regex), with their parsed payloads. -/
def findAllParse {α : Type} (m : Str → Option (Nat × α)) (s : Str) : List α :=
  faGo m s.length s

/-- Matcher for `KEYWORD\s*\{([\s\S]*?)\}`: the total match length and the
captured inner text (between the opening brace and the first closing brace;
the source recovers the same inner text from the full match by stripping up
to the first `{` and from the last `}`). -/
def extractBlockInner (kw : Str) (s : Str) : Option (Nat × Str) :=
  (litC kw s).bind fun k1 =>
    (wsStarC (s.drop k1)).bind fun k2 =>
      match s.drop (k1 + k2) with
      | '{' :: rest =>
          (rest.findIdx? (· = '}')).map fun i => (k1 + k2 + 1 + i + 1, rest.take i)
      | _ => none

/-- Splitting on `\r?\n` (`body.split(/\r?\n/)`). -/
def splitLines (s : Str) : List Str :=
  (splitNl s).map fun l => if l.getLast? == some '\r' then l.dropLast else l

/-- The identifier class `[A-Za-z0-9_\.\-]` of the extraction regexes. -/
def isIdentC (c : Char) : Bool :=
  ('a' ≤ c && c ≤ 'z') || ('A' ≤ c && c ≤ 'Z') || ('0' ≤ c && c ≤ '9') ||
    c = '_' || c = '.' || c = '-'

/-- The `[A-Za-z]` class of the dependency-configuration capture. -/
def isAlphaC (c : Char) : Bool := ('a' ≤ c && c ≤ 'z') || ('A' ≤ c && c ≤ 'Z')

/-- A quote character of the `['"]` class. -/
def isQuoteC (c : Char) : Bool := c = '\'' || c = '"'

/-- Parser for one version-variable line of an `ext` block
(`/^(\s*)([A-Za-z0-9_\.\-]+)\s*[:=]\s*['"]([^'"]+)['"]/`,
transformationPlanner.ts line 192): key and literal value. -/
def parseVersionLine (line : Str) : Option (Str × Str) :=
  let rest1 := line.dropWhile jsSpace
  let ident := rest1.takeWhile isIdentC
  if ident.isEmpty then none
  else
    match (rest1.drop ident.length).dropWhile jsSpace with
    | c :: rest3 =>
        if c = ':' || c = '=' then
          match rest3.dropWhile jsSpace with
          | q :: rest5 =>
              if isQuoteC q then
                let v := rest5.takeWhile fun c2 => !isQuoteC c2
                if v.isEmpty then none
                else
                  match rest5.drop v.length with
                  | q2 :: _ => if isQuoteC q2 then some (ident, v) else none
                  | [] => none
              else none
          | [] => none
        else none
    | [] => none

/-- Matcher for `project\.ext\.([A-Za-z0-9_\.\-]+)\s*=\s*['"]([^'"]+)['"]`
(transformationPlanner.ts lines 199–203). -/
def projExtMatch (s : Str) : Option (Nat × (Str × Str)) :=
  (litC (str "project.ext.") s).bind fun k1 =>
    let rest1 := s.drop k1
    let ident := rest1.takeWhile isIdentC
    if ident.isEmpty then none
    else
      let rest2 := rest1.drop ident.length
      let w1 := (rest2.takeWhile jsSpace).length
      match rest2.drop w1 with
      | '=' :: rest3 =>
          let w2 := (rest3.takeWhile jsSpace).length
          match rest3.drop w2 with
          | q :: rest4 =>
              if isQuoteC q then
                let v := rest4.takeWhile fun c2 => !isQuoteC c2
                if v.isEmpty then none
                else
                  match rest4.drop v.length with
                  | q2 :: _ =>
                      if isQuoteC q2 then
                        some (k1 + ident.length + w1 + 1 + w2 + 1 + v.length + 1, (ident, v))
                      else none
                  | [] => none
              else none
          | _ => none
      | _ => none

/-- Embedding of `extractVersionsFromExt` (transformationPlanner.ts lines
185–205): version variables from `ext { ... }` blocks, then from
`project.ext.<key> = '<value>'` assignments, merged into one object with
last-write-wins and first-assignment key order. -/
def extractVersionsFromExt (text : Str) : List (Str × Str) :=
  let blocks := findAllParse (extractBlockInner (str "ext")) text
  let fromBlocks := blocks.foldl
    (fun out body =>
      (splitLines body).foldl
        (fun out2 line =>
          match parseVersionLine line with
          | some kv => objSet out2 kv.1 kv.2
          | none => out2)
        out)
    []
  (findAllParse projExtMatch text).foldl (fun out kv => objSet out kv.1 kv.2) fromBlocks

/-- Parser for one dependency line
(`/^(\s*)([A-Za-z]+)\s+(['"])((?:@?)[A-Za-z0-9_\-.]+):([A-Za-z0-9_\-.]+)(?::([A-Za-z0-9_\-.]+))?\3/`,
transformationPlanner.ts line 214); the closing quote must equal the opening
one (`\3` backreference). -/
def parseDepLine (line : Str) : Option GDep :=
  let rest1 := line.dropWhile jsSpace
  let conf := rest1.takeWhile isAlphaC
  if conf.isEmpty then none
  else
    let rest2 := rest1.drop conf.length
    let w := (rest2.takeWhile jsSpace).length
    if w = 0 then none
    else
      match rest2.drop w with
      | q :: rest3 =>
          if isQuoteC q then
            let atRest :=
              match rest3 with
              | '@' :: r => (str "@", r)
              | _ => (([] : Str), rest3)
            let g := atRest.2.takeWhile isIdentC
            if g.isEmpty then none
            else
              match atRest.2.drop g.length with
              | ':' :: rest4 =>
                  let a := rest4.takeWhile isIdentC
                  if a.isEmpty then none
                  else
                    match rest4.drop a.length with
                    | ':' :: rest6 =>
                        let ver := rest6.takeWhile isIdentC
                        if ver.isEmpty then none
                        else
                          match rest6.drop ver.length with
                          | q2 :: _ =>
                              if q2 = q then
                                some { conf := conf, group := some (atRest.1 ++ g),
                                       artifact := some a, version := some ver, raw := line }
                              else none
                          | [] => none
                    | q2 :: _ =>
                        if q2 = q then
                          some { conf := conf, group := some (atRest.1 ++ g),
                                 artifact := some a, version := none, raw := line }
                        else none
                    | [] => none
              | _ => none
          else none
      | [] => none

/-- Parser for one project-reference dependency line
(`/^(\s*)([A-Za-z]+)\s+project\(['"][^'"]+['"]\)/`, line 218): configuration
only, no group or artifact. -/
def parseProjectDepLine (line : Str) : Option GDep :=
  let rest1 := line.dropWhile jsSpace
  let conf := rest1.takeWhile isAlphaC
  if conf.isEmpty then none
  else
    let rest2 := rest1.drop conf.length
    let w := (rest2.takeWhile jsSpace).length
    if w = 0 then none
    else
      let rest3 := rest2.drop w
      if (str "project(").isPrefixOf rest3 then
        match rest3.drop 8 with
        | q :: rest5 =>
            if isQuoteC q then
              let inner := rest5.takeWhile fun c2 => !isQuoteC c2
              if inner.isEmpty then none
              else
                match rest5.drop inner.length with
                | q2 :: ')' :: _ =>
                    if isQuoteC q2 then some { conf := conf, raw := line } else none
                | _ => none
            else none
        | [] => none
      else none

/-- Embedding of `extractDependencies` (transformationPlanner.ts lines
207–226): the lines of each `dependencies { ... }` block, parsed as
coordinate dependencies or project references, in order. -/
def extractDependencies (text : Str) : List GDep :=
  (findAllParse (extractBlockInner (str "dependencies")) text).foldl
    (fun out body =>
      (splitLines body).foldl
        (fun out2 line =>
          match parseDepLine line with
          | some d => out2 ++ [d]
          | none =>
              match parseProjectDepLine line with
              | some d => out2 ++ [d]
              | none => out2)
        out)
    []

/-- A module record of the parse output (gradleParser.ts lines 18–23). -/
structure ParseModule where
  dir : Str
  files : List Str
  nexusReferences : Bool
deriving DecidableEq

/-- The parse output handed to the orchestrator; `executeStepByStepMigration`
receives it but never consults it. -/
structure GradleParseOutput where
  modules : List ParseModule
deriving DecidableEq

/-- Embedding of `detectNexus` (gradleParser.ts lines 66–68): the
case-insensitive `/(nexus|sonatype)/i` test that flags a module with a
legacy repository reference. -/
def detectNexus (content : Str) : Bool :=
  containsSub (str "nexus") (lowerStr content) || containsSub (str "sonatype") (lowerStr content)

/-- The meta directory (`.copilot/meta`) inputs of the orchestrator: the
buildSrc template tree (as relative path/content pairs) and the
wrapper-properties template. -/
structure MetaDir where
  buildSrc : Option (List (Str × Str)) := none
  wrapper : Option Str := none
deriving DecidableEq

/-- The mutable state the orchestrator runs over: the project name (the
basename of the project root), the project file tree as a flat
path-to-content map, and the meta directory. -/
structure MigState where
  rootName : Str := []
  files : List (Str × Str) := []
  meta : MetaDir := {}
deriving DecidableEq

/-- The result of `executeStepByStepMigration`: the changed files and the
risk tally. -/
structure MigResult where
  filesChanged : List Str
  low : Nat
  medium : Nat
  high : Nat
deriving DecidableEq

/-- The `riskSummary` string of transformationPlanner.ts line 1405. -/
def riskSummaryStr (r : MigResult) : Str :=
  str "low=" ++ natStr r.low ++ str ", medium=" ++ natStr r.medium ++
    str ", high=" ++ natStr r.high

/-- The running accumulator of one orchestrator pass. -/
structure RunAcc where
  files : List (Str × Str)
  meta : MetaDir
  filesChanged : List Str
  low : Nat
  medium : Nat
  high : Nat
deriving DecidableEq

/-- `fs.existsSync` over the flat file map. -/
def fsExists (fs : List (Str × Str)) (p : Str) : Bool := (lookupA fs p).isSome

/-- `fs.writeFileSync` over the flat file map. -/
def fsWrite (fs : List (Str × Str)) (p c : Str) : List (Str × Str) := objSet fs p c

/-- `fs.unlinkSync` over the flat file map. -/
def fsDelete (fs : List (Str × Str)) (p : Str) : List (Str × Str) :=
  fs.filter fun kv => !(kv.1 == p)

/-- Splitting a path into its `/`-separated components. -/
def splitSlash : Str → List Str
  | [] => [[]]
  | c :: rest =>
      if c = '/' then [] :: splitSlash rest
      else
        match splitSlash rest with
        | [] => [[c]]
        | h :: t => (c :: h) :: t

/-- The directory names pruned by `findAllBuildGradleFiles`
(transformationPlanner.ts line 1774). -/
def skipDirNames : List Str := [str ".git", str ".copilot", str "build", str ".gradle"]

/-- Whether no ancestor directory component of a path is pruned. -/
def notSkipped (p : Str) : Bool :=
  ((splitSlash p).dropLast).all fun comp => !(skipDirNames.contains comp)

/-- Embedding of `findAllBuildGradleFiles` (transformationPlanner.ts lines
1757–1782) over the flat file map: `versions.gradle` first when present,
then every file whose name ends in `build.gradle` and that is not under a
pruned directory.  (The source's stack traversal order is an implementation
detail; the flat map order stands in for it.) -/
def findAllBuildGradleFiles (files : List (Str × Str)) : List Str :=
  (if (lookupA files (str "versions.gradle")).isSome then [str "versions.gradle"] else []) ++
    (files.map Prod.fst).filter fun p =>
      (str "build.gradle").isSuffixOf (((splitSlash p).getLast?).getD []) && notSkipped p

/-- Whether a line matches `/^\s*rootProject\.name\s*=\s*.*$/` (modelled
line-wise; the multiline `\s` of the source cannot cross lines for the
inputs of interest). -/
def lineIsRootName (line : Str) : Bool :=
  let rest := line.dropWhile jsSpace
  (str "rootProject.name").isPrefixOf rest &&
    (match ((rest.drop 16).dropWhile jsSpace) with
     | '=' :: _ => true
     | _ => false)

/-- Whether a line matches `/^\s*include\s+.*$/`. -/
def lineIsInclude (line : Str) : Bool :=
  let rest := line.dropWhile jsSpace
  (str "include").isPrefixOf rest &&
    (match rest.drop 7 with
     | c :: _ => jsSpace c
     | [] => false)

/-- The minimal settings content of orchestrator step 1
(transformationPlanner.ts lines 1309–1313): the first `rootProject.name`
line (or a default built from the project basename), then every `include`
line, joined with newlines plus a trailing newline. -/
def settingsMinimal (rootName original : Str) : Str :=
  let lines := splitNl original
  let rootNameLine :=
    ((lines.find? lineIsRootName).getD (str "rootProject.name = '" ++ rootName ++ str "'"))
  joinNl (rootNameLine :: lines.filter lineIsInclude) ++ str "\n"

/-- Orchestrator step 1 (lines 1304–1322): rewrite `settings.gradle` to its
minimal form when that changes it. -/
def step1Settings (rootName : Str) (acc : RunAcc) : RunAcc :=
  match lookupA acc.files (str "settings.gradle") with
  | none => acc
  | some original =>
      let minimal := settingsMinimal rootName original
      if minimal = original then acc
      else
        { acc with files := fsWrite acc.files (str "settings.gradle") minimal,
                   filesChanged := acc.filesChanged ++ [str "settings.gradle"],
                   low := acc.low + 1 }

/-- Orchestrator step 2 (lines 1324–1335): copy the meta buildSrc tree over
the project's `buildSrc/`, recording every copied file and three low-risk
points, or skip when the template is absent. -/
def step2BuildSrc (acc : RunAcc) : RunAcc :=
  match acc.meta.buildSrc with
  | none => acc
  | some entries =>
      { acc with
          files := entries.foldl (fun fs e => fsWrite fs (str "buildSrc/" ++ e.1) e.2) acc.files,
          filesChanged := acc.filesChanged ++ entries.map (fun e => str "buildSrc/" ++ e.1),
          low := acc.low + 3 }

/-- Read a list of files, failing like `fs.readFileSync` on a missing one. -/
def readAll (files : List (Str × Str)) : List Str → Except Unit (List Str)
  | [] => .ok []
  | p :: ps =>
      match lookupA files p with
      | none => .error ()
      | some c => (readAll files ps).map (c :: ·)

/-- `Array.prototype.join('\n\n')` of the scanned build file contents. -/
def joinNl2 : List Str → Str
  | [] => []
  | [l] => l
  | l :: rest => l ++ '\n' :: '\n' :: joinNl2 rest

/-- Orchestrator step 3 (lines 1337–1351): extract versions and dependencies
from all scanned build files, synthesize the catalog with the deterministic
`buildToml` fallback (the AI collaborator is modelled as failing), and write
it unconditionally, recording the file and one medium-risk point. -/
def step3Toml (acc : RunAcc) (buildFiles : List Str) : Except Unit RunAcc := do
  let contents ← readAll acc.files buildFiles
  let allText := joinNl2 contents
  let toml := buildToml (extractVersionsFromExt allText) (extractDependencies allText) none
  pure { acc with
           files := fsWrite acc.files (str "gradle/libs.versions.toml") toml,
           filesChanged := acc.filesChanged ++ [str "gradle/libs.versions.toml"],
           medium := acc.medium + 1 }

/-- Orchestrator step 4 (lines 1353–1357 and 1712–1755): write the wrapper
properties from the meta template with the preserved version, recording the
file; the caller adds one low-risk point unconditionally, even when the
template is absent and the write is skipped. -/
def step4Wrapper (acc : RunAcc) : RunAcc :=
  let acc' :=
    match acc.meta.wrapper with
    | none => acc
    | some metaContent =>
        { acc with
            files := fsWrite acc.files (str "gradle/wrapper/gradle-wrapper.properties")
              (updateWrapperContent metaContent
                (lookupA acc.files (str "gradle/wrapper/gradle-wrapper.properties"))),
            filesChanged :=
              acc.filesChanged ++ [str "gradle/wrapper/gradle-wrapper.properties"] }
  { acc' with low := acc'.low + 1 }

/-- Orchestrator step 5 (lines 1362–1378): delete the root `build.gradle`
and `versions.gradle` when present, one low-risk point each. -/
def step5Deletes (acc : RunAcc) : RunAcc :=
  let acc1 :=
    if fsExists acc.files (str "build.gradle") then
      { acc with files := fsDelete acc.files (str "build.gradle"),
                 filesChanged := acc.filesChanged ++ [str "build.gradle"],
                 low := acc.low + 1 }
    else acc
  if fsExists acc1.files (str "versions.gradle") then
    { acc1 with files := fsDelete acc1.files (str "versions.gradle"),
                filesChanged := acc1.filesChanged ++ [str "versions.gradle"],
                low := acc1.low + 1 }
  else acc1

/-- Orchestrator step 6 (lines 1380–1395): for every scanned build file
except the root `build.gradle`, re-read it (failing when it was deleted in
step 5, as the source does for `versions.gradle`), apply the stripper and
the plugin injector to the deterministic-fallback content, and write back
only under the guard `changes > 0 && updated !== original`, one medium-risk
point per written file. -/
def step6Files (acc : RunAcc) : List Str → Except Unit RunAcc
  | [] => .ok acc
  | p :: ps =>
      if p = str "build.gradle" then step6Files acc ps
      else
        match lookupA acc.files p with
        | none => .error ()
        | some original =>
            let s := stripRepositoriesAndWrapper original
            let e := ensureCommonLibPlugin s.1
            if 0 < s.2 + e.2 ∧ e.1 ≠ original then
              step6Files
                { acc with files := fsWrite acc.files p e.1,
                           filesChanged := acc.filesChanged ++ [p],
                           medium := acc.medium + 1 } ps
            else step6Files acc ps

/-- Embedding of `executeStepByStepMigration` (transformationPlanner.ts
lines 1287–1409).  The reference-project context is empty (no ops_server),
the AI collaborator is modelled as failing (deterministic fallbacks), and
the final guidance/validation steps only write meta files and log lines, so
they do not affect the result.  The `parse` argument is received and, as in
the source, never consulted. -/
def executeStepByStepMigration (parse : GradleParseOutput) (st : MigState) :
    Except Unit (MigResult × MigState) := do
  let acc0 : RunAcc :=
    { files := st.files, meta := st.meta, filesChanged := [], low := 0, medium := 0, high := 0 }
  let acc1 := step1Settings st.rootName acc0
  let acc2 := step2BuildSrc acc1
  let buildFiles := findAllBuildGradleFiles acc2.files
  let acc3 ← step3Toml acc2 buildFiles
  let acc4 := step4Wrapper acc3
  let acc5 := step5Deletes acc4
  let acc6 ← step6Files acc5 buildFiles
  pure ({ filesChanged := acc6.filesChanged, low := acc6.low, medium := acc6.medium,
          high := acc6.high },
        { st with files := acc6.files })

/-- Monotone progress relation between orchestrator accumulators: recorded
files persist, the low and medium tallies never decrease, and the high tally
never changes. -/
def accLe (acc acc' : RunAcc) : Prop :=
  (∀ x, x ∈ acc.filesChanged → x ∈ acc'.filesChanged) ∧
    acc.low ≤ acc'.low ∧ acc.medium ≤ acc'.medium ∧ acc'.high = acc.high

theorem accLe_refl (acc : RunAcc) : accLe acc acc :=
  ⟨fun _ hx => hx, Nat.le_refl _, Nat.le_refl _, rfl⟩

theorem accLe_trans {a b c : RunAcc} (h1 : accLe a b) (h2 : accLe b c) : accLe a c :=
  ⟨fun x hx => h2.1 x (h1.1 x hx), Nat.le_trans h1.2.1 h2.2.1,
    Nat.le_trans h1.2.2.1 h2.2.2.1, h2.2.2.2.trans h1.2.2.2⟩

theorem step1_le (rn : Str) (acc : RunAcc) : accLe acc (step1Settings rn acc) := by
  unfold step1Settings
  cases lookupA acc.files (str "settings.gradle") with
  | none => exact accLe_refl acc
  | some original =>
      simp only []
      split
      · exact accLe_refl acc
      · exact ⟨fun x hx => List.mem_append_left _ hx, by simp, by simp, rfl⟩

theorem step2_le (acc : RunAcc) : accLe acc (step2BuildSrc acc) := by
  unfold step2BuildSrc
  cases acc.meta.buildSrc with
  | none => exact accLe_refl acc
  | some entries =>
      exact ⟨fun x hx => List.mem_append_left _ hx, by simp, by simp, rfl⟩

theorem step3_ok {acc : RunAcc} {bfs : List Str} {acc' : RunAcc}
    (h : step3Toml acc bfs = .ok acc') :
    accLe acc acc' ∧ str "gradle/libs.versions.toml" ∈ acc'.filesChanged ∧
      acc'.medium = acc.medium + 1 := by
  unfold step3Toml at h
  cases hr : readAll acc.files bfs with
  | error e => rw [hr] at h; exact absurd h (by simp [Except.bind])
  | ok contents =>
      rw [hr] at h
      simp only [Except.bind] at h
      injection h with h''
      subst h''
      refine ⟨⟨fun x hx => List.mem_append_left _ hx, by simp, by simp, rfl⟩, ?_, rfl⟩
      exact List.mem_append_right _ (List.mem_singleton.mpr rfl)

theorem step4_facts (acc : RunAcc) :
    accLe acc (step4Wrapper acc) ∧ (step4Wrapper acc).low = acc.low + 1 := by
  unfold step4Wrapper
  cases acc.meta.wrapper with
  | none => exact ⟨⟨fun x hx => hx, by simp, by simp, rfl⟩, rfl⟩
  | some metaContent =>
      exact ⟨⟨fun x hx => List.mem_append_left _ hx, by simp, by simp, rfl⟩, rfl⟩

theorem step5_le (acc : RunAcc) : accLe acc (step5Deletes acc) := by
  unfold step5Deletes
  split <;> dsimp only <;> split
  · exact ⟨fun x hx => List.mem_append_left _ (List.mem_append_left _ hx),
      by simp; omega, by simp, rfl⟩
  · exact ⟨fun x hx => List.mem_append_left _ hx, by simp, by simp, rfl⟩
  · exact ⟨fun x hx => List.mem_append_left _ hx, by simp, by simp, rfl⟩
  · exact accLe_refl acc

theorem step6_ok {ps : List Str} :
    ∀ {acc acc' : RunAcc}, step6Files acc ps = .ok acc' → accLe acc acc' := by
  induction ps with
  | nil =>
      intro acc acc' h
      unfold step6Files at h
      injection h with h'
      subst h'
      exact accLe_refl _
  | cons p ps ih =>
      intro acc acc' h
      unfold step6Files at h
      by_cases hp : p = str "build.gradle"
      · rw [if_pos hp] at h
        exact ih h
      · rw [if_neg hp] at h
        cases hl : lookupA acc.files p with
        | none => rw [hl] at h; exact absurd h (by simp)
        | some original =>
            rw [hl] at h
            simp only [] at h
            split at h
            · have h2 := ih h
              refine accLe_trans ?_ h2
              exact ⟨fun x hx => List.mem_append_left _ hx, by simp, by simp, rfl⟩
            · exact ih h

/-- C5 (amended): the orchestrator never increments the high-risk counter:
for every parse output — flagged legacy references included — and every
project state, a successful run reports a risk tally with high = 0. -/
theorem executeStepByStepMigration_high_zero (parse : GradleParseOutput) (st : MigState)
    (r : MigResult) (st' : MigState)
    (h : executeStepByStepMigration parse st = .ok (r, st')) : r.high = 0 := by
  unfold executeStepByStepMigration at h
  simp only [bind, Except.bind] at h
  split at h
  · exact absurd h (by simp)
  · next acc3 h3 =>
      split at h
      · exact absurd h (by simp)
      · next acc6 h6 =>
          injection h with hpair
          injection hpair with hr hs
          subst hr
          have hchain : acc6.high = 0 := by
            rw [(step6_ok h6).2.2.2, (step5_le _).2.2.2, (step4_facts acc3).1.2.2.2,
              (step3_ok h3).1.2.2.2, (step2_le _).2.2.2, (step1_le _ _).2.2.2]
          exact hchain

/-- C1 (amended): a run of the orchestrator, a repeat run included, never
reports zero changes: the regenerated catalog path is always in
`filesChanged`, the medium tally is at least 1 (catalog generation), and the
low tally is at least 1 (the unconditional wrapper-step increment). -/
theorem executeStepByStepMigration_always_records_changes (parse : GradleParseOutput)
    (st : MigState) (r : MigResult) (st' : MigState)
    (h : executeStepByStepMigration parse st = .ok (r, st')) :
    str "gradle/libs.versions.toml" ∈ r.filesChanged ∧ 1 ≤ r.medium ∧ 1 ≤ r.low := by
  unfold executeStepByStepMigration at h
  simp only [bind, Except.bind] at h
  split at h
  · exact absurd h (by simp)
  · next acc3 h3 =>
      split at h
      · exact absurd h (by simp)
      · next acc6 h6 =>
          injection h with hpair
          injection hpair with hr hs
          subst hr
          have h3' := step3_ok h3
          have h4 := step4_facts acc3
          have h5 := step5_le (step4Wrapper acc3)
          have h6' := step6_ok h6
          refine ⟨?_, ?_, ?_⟩
          · exact h6'.1 _ (h5.1 _ (h4.1.1 _ h3'.2.1))
          · have hm3 : 1 ≤ acc3.medium := by omega
            have := h4.1.2.2.1
            have := h5.2.2.1
            have := h6'.2.2.1
            show 1 ≤ acc6.medium
            omega
          · have hl4 : 1 ≤ (step4Wrapper acc3).low := by
              rw [h4.2]
              omega
            have := h5.2.1
            have := h6'.2.1
            show 1 ≤ acc6.low
            omega

/-- Whether an orchestrator run completed without throwing. -/
def exceptIsOk {α : Type} : Except Unit α → Bool
  | .ok _ => true
  | .error _ => false

/-- A small project before migration: a settings file and one module build
file, with no meta templates. -/
def migSt0 : MigState :=
  { rootName := str "proj",
    files := [(str "settings.gradle", str "include 'app'\n"),
              (str "app/build.gradle", str "plugins \x7b\n\x7d\n")],
    meta := {} }

/-- An empty parse output. -/
def migParse0 : GradleParseOutput := ⟨[]⟩

/-- The first orchestrator run over the small project. -/
def migRun1 : Except Unit (MigResult × MigState) := executeStepByStepMigration migParse0 migSt0

/-- The project state after the first run. -/
def migSt1 : MigState :=
  match migRun1 with
  | .ok (_, s) => s
  | .error _ => migSt0

/-- The result of the first run. -/
def migR1 : MigResult :=
  match migRun1 with
  | .ok (r, _) => r
  | .error _ => ⟨[], 0, 0, 0⟩

/-- The second orchestrator run, over the already-migrated project. -/
def migRun2 : Except Unit (MigResult × MigState) := executeStepByStepMigration migParse0 migSt1

/-- The result of the second run. -/
def migR2 : MigResult :=
  match migRun2 with
  | .ok (r, _) => r
  | .error _ => ⟨[], 0, 0, 0⟩

set_option maxRecDepth 200000 in
/-- C1 (counterexample): the second run of the orchestrator over the project
already migrated by the first run succeeds, but its `filesChanged` is the
regenerated catalog path — not empty — and its risk tally is
`low=1, medium=1, high=0`, not `low=0, medium=0, high=0`. -/
theorem executeStepByStepMigration_second_run_cex :
    exceptIsOk migRun1 = true ∧ exceptIsOk migRun2 = true ∧
    migR2.filesChanged = [str "gradle/libs.versions.toml"] ∧
    migR2.low = 1 ∧ migR2.medium = 1 ∧ migR2.high = 0 ∧
    ¬(migR2.filesChanged = [] ∧ migR2.low = 0 ∧ migR2.medium = 0 ∧ migR2.high = 0) := by
  decide

set_option maxRecDepth 200000 in
/-- Witness for `executeStepByStepMigration_always_records_changes` at the
concrete small project. -/
theorem executeStepByStepMigration_always_records_changes_witness :
    str "gradle/libs.versions.toml" ∈ migR1.filesChanged ∧ 1 ≤ migR1.medium ∧ 1 ≤ migR1.low :=
  executeStepByStepMigration_always_records_changes migParse0 migSt0 migR1 migSt1 (by rfl)

/-- A module build file that mentions the legacy repository (so the module
is flagged) but matches none of the stripper patterns and already carries
the convention plugin: zero changes in step 6. -/
def nexContent : Str := str "// nexus\nplugins \x7b\n    id 'common.lib'\n\x7d\n"

/-- A parse output whose single module is flagged with a legacy reference. -/
def nexParse : GradleParseOutput :=
  ⟨[{ dir := str "app", files := [str "app/build.gradle"], nexusReferences := true }]⟩

/-- The project containing the flagged, zero-change module. -/
def nexSt0 : MigState :=
  { rootName := str "proj",
    files := [(str "settings.gradle", str "rootProject.name = 'proj'\n"),
              (str "app/build.gradle", nexContent)],
    meta := {} }

/-- The orchestrator run over the flagged project. -/
def nexRun : Except Unit (MigResult × MigState) := executeStepByStepMigration nexParse nexSt0

/-- The state after the flagged-project run. -/
def nexSt1 : MigState :=
  match nexRun with
  | .ok (_, s) => s
  | .error _ => nexSt0

/-- The result of the flagged-project run. -/
def nexR : MigResult :=
  match nexRun with
  | .ok (r, _) => r
  | .error _ => ⟨[], 9, 9, 9⟩

set_option maxRecDepth 200000 in
/-- C5 (counterexample): a module flagged with a legacy (nexus) reference
whose build file shows zero changes after stripping and injection, yet the
run reports high = 0 — the high-risk counter is never incremented. -/
theorem executeStepByStepMigration_no_high_risk_cex :
    detectNexus nexContent = true ∧
    (nexParse.modules.any fun m => m.nexusReferences) = true ∧
    (stripRepositoriesAndWrapper nexContent).2 +
      (ensureCommonLibPlugin (stripRepositoriesAndWrapper nexContent).1).2 = 0 ∧
    exceptIsOk nexRun = true ∧ nexR.high = 0 := by
  decide

set_option maxRecDepth 200000 in
/-- Witness for `executeStepByStepMigration_high_zero` at the flagged
concrete project. -/
theorem executeStepByStepMigration_high_zero_witness : nexR.high = 0 :=
  executeStepByStepMigration_high_zero nexParse nexSt0 nexR nexSt1 (by rfl)
